import Mathlib

/-!
TheOcean exchange adapter: order encoding, hashing, the reserve/sign/place flow,
request signing and error handling.

A shallow embedding of `js/theocean.js`.  JavaScript objects are association
lists, exceptions are `Except`, `process.exit ()` is an explicit outcome, and the
third-party primitives the file calls (`ethereumjs-abi`, `bn.js`, `ethereumjs-util`,
`0x.js`, the web3 account object) are either parameters (`Lib`) or modelled from
the written contract of the codec.
-/

namespace TheOcean

/-! ## JavaScript values and objects -/

/-- The JavaScript values that flow through the order code: `undefined`, strings,
`bn.js` big numbers (the result of `new BN (..)`), arrays and plain objects. -/
inductive JsVal where
  | undefined : JsVal
  | str (s : String) : JsVal
  | bn (n : Int) : JsVal
  | arr (items : List JsVal) : JsVal
  | obj (fields : List (String × JsVal)) : JsVal

/-- A plain JavaScript object: its own properties in insertion order. -/
abbrev Obj := List (String × JsVal)

/-- Property read `o[k]`; a missing property reads as `undefined`. -/
def Obj.get : Obj → String → JsVal
  | [], _ => JsVal.undefined
  | (k', v) :: rest, k => if k' = k then v else Obj.get rest k

/-- Property write `o[k] = v`: overwrite in place when present, else append. -/
def Obj.set : Obj → String → JsVal → Obj
  | [], k, v => [(k, v)]
  | (k', v') :: rest, k, v => if k' = k then (k, v) :: rest else (k', v') :: Obj.set rest k v

/-- Property read on an arbitrary value; reading from a non-object gives `undefined`. -/
def JsVal.get : JsVal → String → JsVal
  | JsVal.obj fields, k => Obj.get fields k
  | _, _ => JsVal.undefined

/-- The own properties of a value (none for a non-object). -/
def JsVal.fields : JsVal → Obj
  | JsVal.obj fields => fields
  | _ => []

/-- Modelled from the spec: the inherited helper `extend` (base class `Exchange`) is not
part of the sources; it is the shallow merge used to "fill the maker field" of the
relay's template: a fresh object holding the properties of `a`, then those of `b`
assigned over them.  Neither argument is modified. -/
def extend (a b : Obj) : Obj :=
  b.foldl (fun acc kv => Obj.set acc kv.1 kv.2) a

/-! ## Errors and outcomes -/

/-- Errors raised along the order flow (taxonomy of the written contract, §7). -/
inductive Err where
  | EncodingError : Err
  | InvalidKey : Err
  | SigningError : Err
  | ReferenceError (name : String) : Err
  | TypeError : Err
  | ExchangeError (msg : String) : Err
  | AuthenticationError (msg : String) : Err
  | SyntaxError : Err
  | Thrown (value : String) : Err
  deriving DecidableEq, Repr

/-! ## Byte strings -/

/-- A byte string; every element is below 256. -/
abbrev Bytes := List Nat

/-- Big-endian encoding of `n` on exactly `len` bytes (the low `8 * len` bits). -/
def toBytesBE : Nat → Nat → Bytes
  | 0, _ => []
  | len + 1, n => toBytesBE len (n / 256) ++ [n % 256]

/-- Big-endian value of a byte string. -/
def fromBytesBE (bs : Bytes) : Nat := bs.foldl (fun acc b => acc * 256 + b) 0

/-- One lower-case hexadecimal digit. -/
def hexDigit (n : Nat) : Char := "0123456789abcdef".data.getD n '0'

/-- Hex form of a buffer, `Buffer.toString ('hex')`: two lower-case hexadecimal digits per byte. -/
def toHex : Bytes → List Char
  | [] => []
  | b :: rest => hexDigit (b / 16) :: hexDigit (b % 16) :: toHex rest

/-- Value of a hexadecimal digit character, if it is one. -/
def hexVal (c : Char) : Option Nat :=
  if 48 ≤ c.toNat ∧ c.toNat ≤ 57 then some (c.toNat - 48)
  else if 97 ≤ c.toNat ∧ c.toNat ≤ 102 then some (c.toNat - 87)
  else if 65 ≤ c.toNat ∧ c.toNat ≤ 70 then some (c.toNat - 55)
  else none

/-- Value of a decimal digit character, if it is one. -/
def decVal (c : Char) : Option Nat :=
  if 48 ≤ c.toNat ∧ c.toNat ≤ 57 then some (c.toNat - 48) else none

/-- Read a digit string in the given base, most significant digit first, on top of
the accumulator `acc`; `none` as soon as a character is not a digit. -/
def parseDigits (digit : Char → Option Nat) (base : Nat) : List Char → Nat → Option Nat
  | [], acc => some acc
  | c :: rest, acc =>
    match digit c with
    | some d => parseDigits digit base rest (acc * base + d)
    | none => none

/-- Strip the `0x` prefix marker when present. -/
def stripHexPrefix : List Char → List Char
  | '0' :: 'x' :: rest => rest
  | cs => cs

/-- Buffer from a hex string, `new Buffer (s, 'hex')`: decode pairs of hexadecimal digits, stopping at the
first pair that is not one. -/
def bufferFromHex : List Char → Bytes
  | a :: b :: rest =>
    match hexVal a, hexVal b with
    | some x, some y => (x * 16 + y) :: bufferFromHex rest
    | _, _ => []
  | _ => []

/-! ## FieldCodec: the packed encoding (`ethereumjs-abi`, `bn.js`) -/

/-- The Solidity type tags the file passes to the packer. -/
inductive SolType where
  | address : SolType
  | uint256 : SolType
  deriving DecidableEq, Repr

/-- Modelled from the spec: the integer reader behind `new BN (value, 10)` (`bn.js`,
third-party, not part of the sources).  An integer field is an arbitrary-precision
value written as a decimal string, optionally signed; a value that is missing or
malformed for its field is an `EncodingError` (§7), never a default. -/
def parseNumber : JsVal → Except Err Int
  | JsVal.bn n => Except.ok n
  | JsVal.str s =>
    match s.data with
    | [] => Except.error Err.EncodingError
    | '-' :: c :: rest =>
      match parseDigits decVal 10 (c :: rest) 0 with
      | some n => Except.ok (-(n : Int))
      | none => Except.error Err.EncodingError
    | c :: rest =>
      match parseDigits decVal 10 (c :: rest) 0 with
      | some n => Except.ok (n : Int)
      | none => Except.error Err.EncodingError
  | _ => Except.error Err.EncodingError

/-- Modelled from the spec: `new BN (value, 10)`, see `parseNumber`. -/
def BN (v : JsVal) : Except Err JsVal :=
  match parseNumber v with
  | Except.ok n => Except.ok (JsVal.bn n)
  | Except.error e => Except.error e

/-- Modelled from the spec: the `Address` reader of FieldCodec (§4.1; the packer of
`ethereumjs-abi` is third-party, not part of the sources).  The value is a string of at
most 40 hexadecimal digits after stripping the prefix marker, read big-endian. -/
def parseAddress : JsVal → Except Err Nat
  | JsVal.str s =>
    let digits := stripHexPrefix s.data
    if digits.length ≤ 40 then
      match parseDigits hexVal 16 digits 0 with
      | some n => Except.ok n
      | none => Except.error Err.EncodingError
    else Except.error Err.EncodingError
  | _ => Except.error Err.EncodingError

/-- Modelled from the spec: FieldCodec (§4.1), type tag `Address`: exactly 20 bytes,
big-endian, left-padded with zero. -/
def encodeAddress (v : JsVal) : Except Err Bytes :=
  match parseAddress v with
  | Except.ok n => Except.ok (toBytesBE 20 n)
  | Except.error e => Except.error e

/-- Modelled from the spec: FieldCodec (§4.1), type tag `UInt256`: exactly 32 bytes,
big-endian, left-padded with zero; `EncodingError` if the value is negative or its
magnitude exceeds `2^256 - 1`. -/
def encodeUint256 (v : JsVal) : Except Err Bytes :=
  match parseNumber v with
  | Except.ok n =>
    if 0 ≤ n ∧ n < 2 ^ 256 then Except.ok (toBytesBE 32 n.toNat)
    else Except.error Err.EncodingError
  | Except.error e => Except.error e

/-- Modelled from the spec: FieldCodec (§4.1) on one field, by type tag. -/
def encodeField : SolType → JsVal → Except Err Bytes
  | SolType.address, v => encodeAddress v
  | SolType.uint256, v => encodeUint256 v

/-- Modelled from the spec: the fixed per-type widths of FieldCodec (§4.1), in bytes. -/
def fieldWidth : SolType → Nat
  | SolType.address => 20
  | SolType.uint256 => 32

/-- Modelled from the spec: FieldCodec `encode` (§4.1), the packer behind
`ethAbi.soliditySHA3` and `ethAbi.soliditySHA256`: the concatenation of each field's
fixed-width encoding in input order, the i-th type tag read with the i-th value; no
type markers, no length prefixes. -/
def solidityPack : List SolType → List JsVal → Except Err Bytes
  | [], [] => Except.ok []
  | t :: ts, v :: vs =>
    match encodeField t v with
    | Except.error e => Except.error e
    | Except.ok b =>
      match solidityPack ts vs with
      | Except.error e => Except.error e
      | Except.ok rest => Except.ok (b ++ rest)
  | _, _ => Except.error Err.EncodingError

/-! ## Primitives taken as parameters -/

/-- A recoverable signature as returned by `ethUtil.ecsign`. -/
structure ECSig where
  v : Nat
  r : Bytes
  s : Bytes

/-- The account object returned by `decryptAccountFromPrivateKey`; `sign (hash, key)`
returns an object that carries `messageHash`. -/
structure Account where
  sign : String → String → Except Err JsVal

/-- The primitives called by the order code that are not part of the sources, taken as
parameters.  `sha3` is the 256-bit digest behind `ethAbi.soliditySHA3`, `sha256` the one
behind `ethAbi.soliditySHA256`; `serializeOrder` stands for `serializers.serializeOrder`,
an identifier the file uses without binding it; `toLowerCase` is the built-in
`String.prototype.toLowerCase` of the engine, whose result follows the Unicode case
mappings (no property of it is assumed). -/
structure Lib where
  sha3 : Bytes → Bytes
  sha256 : Bytes → Bytes
  decryptAccountFromPrivateKey : String → Except Err Account
  ecsign : Bytes → Bytes → Except Err ECSig
  serializeOrder : JsVal → Except Err JsVal
  toLowerCase : String → String

/-- Library call `ethAbi.soliditySHA3 (types, values)`: the digest of the packed string. -/
def soliditySHA3 (lib : Lib) (types : List SolType) (values : List JsVal) : Except Err Bytes :=
  match solidityPack types values with
  | Except.ok packed => Except.ok (lib.sha3 packed)
  | Except.error e => Except.error e

/-- Library call `ethAbi.soliditySHA256 (types, values)`: the digest of the packed string. -/
def soliditySHA256 (lib : Lib) (types : List SolType) (values : List JsVal) : Except Err Bytes :=
  match solidityPack types values with
  | Except.ok packed => Except.ok (lib.sha256 packed)
  | Except.error e => Except.error e

/-! ## The exchange object -/

/-- The properties of `this` that the order code reads. -/
structure Exchange where
  id : String
  uid : String
  privateKey : String
  apiKey : String
  secret : String

/-- How a call ends: it returns a value, throws, or terminates the process. -/
inductive Outcome (α : Type) where
  | returned (a : α) : Outcome α
  | threw (e : Err) : Outcome α
  | exited : Outcome α

/-- The trace of a call: what it wrote to the log, one entry per `log` call holding
the arguments of that call, and how it ended. -/
structure Run (α : Type) where
  log : List (List JsVal)
  outcome : Outcome α

/-! ## Order hashing -/

/-- Source `getOrderHash` (lines 462-469): pack the seven arguments with their type
tags, digest with `soliditySHA256`, and return `'0x'` followed by the hex digest. -/
def getOrderHash (lib : Lib) (_this : Exchange)
    (contractAddress tokenGet amountGet tokenGive amountGive expires orderNonce : JsVal) :
    Except Err String :=
  let unpacked := [contractAddress, tokenGet, amountGet, tokenGive, amountGive, expires, orderNonce]
  let types := [SolType.address, SolType.address, SolType.uint256, SolType.address,
    SolType.uint256, SolType.uint256, SolType.uint256]
  match soliditySHA256 lib types unpacked with
  | Except.error e => Except.error e
  | Except.ok sha256 =>
    let sha256Hex := String.mk (toHex sha256)
    Except.ok ("0x" ++ sha256Hex)

/-- The byte string that `getOrderHash` feeds to the digest (argument of the digest
inside `ethAbi.soliditySHA256 (types, unpacked)`, line 465). -/
def getOrderHashPacked
    (contractAddress tokenGet amountGet tokenGive amountGive expires orderNonce : JsVal) :
    Except Err Bytes :=
  let unpacked := [contractAddress, tokenGet, amountGet, tokenGive, amountGive, expires, orderNonce]
  let types := [SolType.address, SolType.address, SolType.uint256, SolType.address,
    SolType.uint256, SolType.uint256, SolType.uint256]
  solidityPack types unpacked

/-- The type tags of `signOrder` (lines 511-524). -/
def signOrderTypes : List SolType :=
  [SolType.address, SolType.address, SolType.address, SolType.address, SolType.address,
   SolType.address, SolType.uint256, SolType.uint256, SolType.uint256, SolType.uint256,
   SolType.uint256, SolType.uint256]

/-- The array `unpacked` of `signOrder` (lines 496-510): six property reads, then six
`new BN (.., 10)` constructions evaluated left to right. -/
def signOrderUnpacked (order : Obj) : Except Err (List JsVal) := do
  let makerTokenAmount ← BN (order.get "makerTokenAmount")
  let takerTokenAmount ← BN (order.get "takerTokenAmount")
  let makerFee ← BN (order.get "makerFee")
  let takerFee ← BN (order.get "takerFee")
  let expirationUnixTimestampSec ← BN (order.get "expirationUnixTimestampSec")
  let salt ← BN (order.get "salt")
  pure [order.get "exchangeContractAddress", order.get "maker", order.get "taker",
    order.get "makerTokenAddress", order.get "takerTokenAddress", order.get "feeRecipient",
    makerTokenAmount, takerTokenAmount, makerFee, takerFee, expirationUnixTimestampSec, salt]

/-- The byte string that `signOrder` feeds to the digest (argument of the digest
inside `ethAbi.soliditySHA3 (types, unpacked)`, line 527). -/
def signOrderPacked (order : Obj) : Except Err Bytes := do
  let unpacked ← signOrderUnpacked order
  solidityPack signOrderTypes unpacked

/-- The string `hash` of `signOrder` (lines 496-529). -/
def signOrderHash (lib : Lib) (_this : Exchange) (order : Obj) : Except Err String := do
  let unpacked ← signOrderUnpacked order
  let sha256 ← soliditySHA3 lib signOrderTypes unpacked
  let sha256Hex := String.mk (toHex sha256)
  pure ("0x" ++ sha256Hex)

/-- The reference `getOrderHashHex` quoted in the comment above `signOrder`
(lines 471-491), which `ZeroEx.getOrderHashHex` stands for: the same twelve parts, with
`bigNumberToBN` on the integer fields, `soliditySHA3`, then `bufferToHex`. -/
def getOrderHashHex (lib : Lib) (order : Obj) : Except Err String := do
  let makerTokenAmount ← BN (order.get "makerTokenAmount")
  let takerTokenAmount ← BN (order.get "takerTokenAmount")
  let makerFee ← BN (order.get "makerFee")
  let takerFee ← BN (order.get "takerFee")
  let expirationUnixTimestampSec ← BN (order.get "expirationUnixTimestampSec")
  let salt ← BN (order.get "salt")
  let orderParts : List (JsVal × SolType) :=
    [(order.get "exchangeContractAddress", SolType.address),
     (order.get "maker", SolType.address),
     (order.get "taker", SolType.address),
     (order.get "makerTokenAddress", SolType.address),
     (order.get "takerTokenAddress", SolType.address),
     (order.get "feeRecipient", SolType.address),
     (makerTokenAmount, SolType.uint256),
     (takerTokenAmount, SolType.uint256),
     (makerFee, SolType.uint256),
     (takerFee, SolType.uint256),
     (expirationUnixTimestampSec, SolType.uint256),
     (salt, SolType.uint256)]
  let types := orderParts.map (fun o => o.2)
  let values := orderParts.map (fun o => o.1)
  let hashBuff ← soliditySHA3 lib types values
  pure ("0x" ++ String.mk (toHex hashBuff))

/-! ## signOrder -/

/-- The object literal `{ v: '0x' + sig.v.toString (16), r: '0x' + .., s: '0x' + .. }`
logged by `signOrder` (lines 540-549). -/
def sigTriplet (sig : ECSig) : JsVal :=
  JsVal.obj
    [("v", JsVal.str ("0x" ++ String.mk (Nat.toDigits 16 sig.v))),
     ("r", JsVal.str ("0x" ++ String.mk (toHex sig.r))),
     ("s", JsVal.str ("0x" ++ String.mk (toHex sig.s)))]

/-- Source `signOrder` (lines 493-557).  Every path that throws nothing reaches the
`process.exit ()` of line 550; the `return this.extend (order, ..)` is commented out. -/
def signOrder (lib : Lib) (this : Exchange) (order : Obj) : Run JsVal :=
  match getOrderHashHex lib order with
  | Except.error e => Run.mk [] (Outcome.threw e)
  | Except.ok orderHash =>
    let log1 := [[JsVal.str "orderHash:", JsVal.str orderHash]]
    match signOrderUnpacked order with
    | Except.error e => Run.mk log1 (Outcome.threw e)
    | Except.ok unpacked =>
      let log2 := log1 ++ [[JsVal.arr unpacked]]
      match soliditySHA3 lib signOrderTypes unpacked with
      | Except.error e => Run.mk log2 (Outcome.threw e)
      | Except.ok sha256 =>
        let sha256Hex := String.mk (toHex sha256)
        let hash := "0x" ++ sha256Hex
        let log3 := log2 ++ [[JsVal.str "orderHas2:", JsVal.str hash]]
        match lib.decryptAccountFromPrivateKey this.privateKey with
        | Except.error e => Run.mk log3 (Outcome.threw e)
        | Except.ok acc =>
          let key := String.mk (this.privateKey.data.drop 2)
          match acc.sign hash key with
          | Except.error e => Run.mk log3 (Outcome.threw e)
          | Except.ok signature =>
            match signature.get "messageHash" with
            | JsVal.str messageHash =>
              match lib.ecsign (bufferFromHex (messageHash.data.drop 2)) (bufferFromHex key.data) with
              | Except.error e => Run.mk log3 (Outcome.threw e)
              | Except.ok sig2 =>
                match lib.ecsign (bufferFromHex (hash.data.drop 2)) (bufferFromHex key.data) with
                | Except.error e => Run.mk log3 (Outcome.threw e)
                | Except.ok sig3 =>
                  let log4 := log3 ++
                    [[signature],
                     [JsVal.str "----------------------------------------------------------"],
                     [JsVal.str (String.mk (Nat.toDigits 16 sig2.v))],
                     [sigTriplet sig2],
                     [sigTriplet sig3]]
                  Run.mk log4 Outcome.exited
            | _ => Run.mk log3 (Outcome.threw Err.TypeError)

/-! ## createOrder -/

/-- The reservation response hard-coded in `createOrder` (lines 581-594), the
market-order shape. -/
def reserveResponse : Obj :=
  [("matchingOrderID", JsVal.str "MARKET_INTENT:8yjjtgkt6k8yjjtgkt6ljjtgkt6m"),
   ("unsignedMatchingOrder", JsVal.obj
     [("maker", JsVal.str ""),
      ("taker", JsVal.str "0x00ba938cc0df182c25108d7bf2ee3d37bce07513"),
      ("makerTokenAddress", JsVal.str "0xd0a1e359811322d97991e03f863a0c30c2cf029c"),
      ("takerTokenAddress", JsVal.str "0x6ff6c0ff1d68b964901f986d4c9fa3ac68346570"),
      ("makerTokenAmount", JsVal.str "27100000000000000"),
      ("takerTokenAmount", JsVal.str "881877819717396973"),
      ("makerFee", JsVal.str "0"),
      ("takerFee", JsVal.str "0"),
      ("expirationUnixTimestampSec", JsVal.str "1534651346"),
      ("feeRecipient", JsVal.str "0x88a64b5e882e5ad851bea5e7a3c8ba7c523fecbe"),
      ("salt", JsVal.str "73665372381710778176321403164539964478925879098761330710742710411655889865098"),
      ("exchangeContractAddress", JsVal.str "0x90fe2af704b34e0224bf2299c838e04d4dcf1364")])]

/-- The order `marketOrder` that `createOrder` passes to `signOrder` (lines 644-646). -/
def marketOrder (lib : Lib) (this : Exchange) (reserveResponse : Obj) : Obj :=
  extend (reserveResponse.get "unsignedMatchingOrder").fields
    [("maker", JsVal.str (lib.toLowerCase this.uid))]

/-- A store of objects: an object reference is a position in the store. -/
abbrev Store := List Obj

/-- The object a reference denotes in a store; a reference that denotes no object reads
as the empty one. -/
def Store.read (store : Store) (ref : Nat) : Obj := store.getD ref []

/-- Modelled from the spec: the inherited helper `extend` (base class `Exchange`, not
part of the sources) on object references.  An Order "is constructed from caller input
plus a relay-provided template" (§3): the merge of the object at `a` with the properties
`b` is allocated at a fresh reference, and no object already in the store is written
to.  The result is the store after the call and the reference returned. -/
def extendRef (store : Store) (a : Nat) (b : Obj) : Store × Nat :=
  (store ++ [extend (store.read a) b], store.length)

/-- The statement `const marketOrder = this.extend (reserveResponse['unsignedMatchingOrder'],
{ 'maker': this.uid.toLowerCase () })` of lines 644-646 on a store, where `unsigned` is the
reference held by `reserveResponse['unsignedMatchingOrder']`: the store after the
statement and the reference bound to `marketOrder`.  Apart from the `log` call of line
641, it is the only statement of lines 641-656 that is handed the relay's unsigned order;
`signOrder` is handed the new object. -/
def marketOrderRef (lib : Lib) (this : Exchange) (store : Store) (unsigned : Nat) :
    Store × Nat :=
  extendRef store unsigned [("maker", JsVal.str (lib.toLowerCase this.uid))]

/-- The object `placeRequest` of `createOrder` (lines 649-652). -/
def placeRequest (reserveResponse : Obj) (serializedMarketOrder : JsVal) : Obj :=
  [("signedOrder", serializedMarketOrder),
   ("marketOrderID", reserveResponse.get "marketOrderID")]

/-- Source `createOrder` from line 641 on, for a reservation response: log it, fill
the maker, sign, serialize, build the placement request, log it, and stop at the
`process.exit ()` of line 656 (the placement call itself is commented out). -/
def createOrderFrom (lib : Lib) (this : Exchange) (reserveResponse : Obj) : Run JsVal :=
  let log1 := [[JsVal.obj reserveResponse]]
  let signed := signOrder lib this (marketOrder lib this reserveResponse)
  match signed.outcome with
  | Outcome.threw e => Run.mk (log1 ++ signed.log) (Outcome.threw e)
  | Outcome.exited => Run.mk (log1 ++ signed.log) Outcome.exited
  | Outcome.returned signedMarketOrder =>
    match lib.serializeOrder signedMarketOrder with
    | Except.error e => Run.mk (log1 ++ signed.log) (Outcome.threw e)
    | Except.ok serializedMarketOrder =>
      Run.mk (log1 ++ signed.log ++ [[JsVal.obj (placeRequest reserveResponse serializedMarketOrder)]])
        Outcome.exited

/-! ## Field names, validity, and a small instance of the parameters -/

/-- The address fields of an order, in the order `signOrder` packs them. -/
def addressFields : List String :=
  ["exchangeContractAddress", "maker", "taker", "makerTokenAddress", "takerTokenAddress",
   "feeRecipient"]

/-- The integer fields of an order, in the order `signOrder` packs them. -/
def integerFields : List String :=
  ["makerTokenAmount", "takerTokenAmount", "makerFee", "takerFee",
   "expirationUnixTimestampSec", "salt"]

/-- A valid address field: a string of at most 40 hexadecimal digits (20 bytes). -/
def validAddress (v : JsVal) : Bool :=
  match parseAddress v with
  | Except.ok _ => true
  | Except.error _ => false

/-- A valid integer field: an integer in `[0, 2^256 - 1]`. -/
def validUint256 (v : JsVal) : Bool :=
  match parseNumber v with
  | Except.ok n => decide (0 ≤ n ∧ n < 2 ^ 256)
  | Except.error _ => false

/-- A valid order: its six address fields and six integer fields are valid. -/
def validOrder (order : Obj) : Bool :=
  addressFields.all (fun k => validAddress (order.get k)) &&
  integerFields.all (fun k => validUint256 (order.get k))

/-- A small instance of the primitives, with 32-byte digests; its `toLowerCase` maps the
letters `A` to `Z` and leaves every other character, which is what the built-in does on
the hexadecimal text of a wallet address. -/
def sampleLib : Lib where
  sha3 := fun b => toBytesBE 32 (fromBytesBE b)
  sha256 := fun b => toBytesBE 32 (fromBytesBE b + 1)
  decryptAccountFromPrivateKey := fun _ =>
    Except.ok { sign := fun hash _ => Except.ok (JsVal.obj [("messageHash", JsVal.str hash)]) }
  ecsign := fun digest _ => Except.ok { v := 27, r := digest, s := digest }
  serializeOrder := fun v => Except.ok v
  toLowerCase := fun s => String.mk (s.data.map Char.toLower)

/-- A small instance of the exchange object. -/
def sampleExchange : Exchange where
  id := "theocean"
  uid := "0x00BA938CC0DF182C25108D7BF2EE3D37BCE07513"
  privateKey := "0x0000000000000000000000000000000000000000000000000000000000000001"
  apiKey := "key"
  secret := "secret"

/-- The order built from the hard-coded reservation for the sample exchange. -/
def sampleOrder : Obj := marketOrder sampleLib sampleExchange reserveResponse

/-- The sample order with the salt `2^256`, one above the largest 256-bit value. -/
def overflowOrder : Obj :=
  extend sampleOrder
    [("salt", JsVal.str "115792089237316195423570985008687907853269984665640564039457584007913129639936")]

/-- The sample order with another salt. -/
def sampleOrderOtherSalt : Obj := extend sampleOrder [("salt", JsVal.str "1")]

/-- The sample order carrying one more property, outside the twelve hashed fields. -/
def sampleOrderExtraField : Obj := extend sampleOrder [("orderHash", JsVal.str "0x00")]

/-- Another exchange object: other address, other key. -/
def otherExchange : Exchange where
  id := "theocean"
  uid := "0x88a64b5e882e5ad851bea5e7a3c8ba7c523fecbe"
  privateKey := "0x0000000000000000000000000000000000000000000000000000000000000002"
  apiKey := "other"
  secret := "other"

/-- A reservation response whose unsigned order lacks `makerFee`. -/
def reserveResponseNoMakerFee : Obj :=
  [("matchingOrderID", JsVal.str "MARKET_INTENT:8yjjtgkt6k8yjjtgkt6ljjtgkt6m"),
   ("unsignedMatchingOrder", JsVal.obj
     [("maker", JsVal.str ""),
      ("taker", JsVal.str "0x00ba938cc0df182c25108d7bf2ee3d37bce07513"),
      ("makerTokenAddress", JsVal.str "0xd0a1e359811322d97991e03f863a0c30c2cf029c"),
      ("takerTokenAddress", JsVal.str "0x6ff6c0ff1d68b964901f986d4c9fa3ac68346570"),
      ("makerTokenAmount", JsVal.str "27100000000000000"),
      ("takerTokenAmount", JsVal.str "881877819717396973"),
      ("takerFee", JsVal.str "0"),
      ("expirationUnixTimestampSec", JsVal.str "1534651346"),
      ("feeRecipient", JsVal.str "0x88a64b5e882e5ad851bea5e7a3c8ba7c523fecbe"),
      ("salt", JsVal.str "73665372381710778176321403164539964478925879098761330710742710411655889865098"),
      ("exchangeContractAddress", JsVal.str "0x90fe2af704b34e0224bf2299c838e04d4dcf1364")])]


/-! ## JSON serialization and the inherited helpers -/

/-- Four lower-case hexadecimal digits of a code unit, as in a unicode escape. -/
def hex4 (n : Nat) : List Char :=
  [hexDigit (n / 4096 % 16), hexDigit (n / 256 % 16), hexDigit (n / 16 % 16), hexDigit (n % 16)]

/-- The escape of one character inside a JSON string literal (`JSON.stringify`). -/
def jsonEscape (c : Char) : List Char :=
  if c.toNat = 34 then [Char.ofNat 92, Char.ofNat 34]
  else if c.toNat = 92 then [Char.ofNat 92, Char.ofNat 92]
  else if c.toNat = 8 then [Char.ofNat 92, 'b']
  else if c.toNat = 12 then [Char.ofNat 92, 'f']
  else if c.toNat = 10 then [Char.ofNat 92, 'n']
  else if c.toNat = 13 then [Char.ofNat 92, 'r']
  else if c.toNat = 9 then [Char.ofNat 92, 't']
  else if c.toNat < 32 then Char.ofNat 92 :: 'u' :: hex4 c.toNat
  else [c]

/-- A string as a JSON string literal. -/
def jsonQuote (s : String) : String :=
  String.mk (Char.ofNat 34 :: (s.data.flatMap jsonEscape ++ [Char.ofNat 34]))

/-- Join the members of an array or object with commas. -/
def joinComma : List String → String
  | [] => ""
  | [s] => s
  | s :: rest => s ++ "," ++ joinComma rest

mutual
/-- The text `JSON.stringify` gives for a value, `none` where it gives `undefined`.  A
`bn.js` number serializes through its `toJSON`, a hexadecimal string. -/
def jsonValue : JsVal → Option String
  | JsVal.undefined => none
  | JsVal.str s => some (jsonQuote s)
  | JsVal.bn n =>
    some (jsonQuote ((if n < 0 then "-" else "") ++ String.mk (Nat.toDigits 16 n.natAbs)))
  | JsVal.arr items => some ("[" ++ joinComma (jsonItems items) ++ "]")
  | JsVal.obj fields => some ("\x7b" ++ joinComma (jsonFields fields) ++ "\x7d")
/-- The serialized elements of an array; `undefined` elements become `null`. -/
def jsonItems : List JsVal → List String
  | [] => []
  | v :: rest => (jsonValue v).getD "null" :: jsonItems rest
/-- The serialized members of an object; members whose value is `undefined` are left
out. -/
def jsonFields : List (String × JsVal) → List String
  | [] => []
  | (k, v) :: rest =>
    match jsonValue v with
    | some s => (jsonQuote k ++ ":" ++ s) :: jsonFields rest
    | none => jsonFields rest
end

/-- The helper `this.json (object)`, that is `JSON.stringify`, on an object. -/
def json (o : Obj) : String := "\x7b" ++ joinComma (jsonFields o) ++ "\x7d"


/-- The inherited helpers of the base class `Exchange` and the built-ins that the file
calls and that are not part of the sources, taken as parameters.  `market` stands for
`loadMarkets` followed by `this.market (symbol)`; `decimalToPrecision` receives the
price, the price precision of the market and the precision mode (the rounding mode is
the constant `ROUND`); `market`, `amountToPrecision`, `decimalToPrecision` and `toWei`
may throw; `hmac` receives the message, the key, the hash name and the digest encoding;
`parseJson` is `JSON.parse`, `none` when it throws. -/
structure Env where
  market : String → Except Err JsVal
  markets : JsVal
  precisionMode : JsVal
  amountToPrecision : String → JsVal → Except Err JsVal
  decimalToPrecision : JsVal → JsVal → JsVal → Except Err JsVal
  toWei : JsVal → Except Err JsVal
  capitalize : String → String
  implodeParams : String → Obj → String
  extractParams : String → List String
  urlencode : Obj → String
  checkRequiredCredentials : Exchange → Except Err Unit
  hmac : String → String → String → String → String
  parseJson : String → Option JsVal
  safeString : JsVal → String → Option String

/-- The helper `this.omit (object, keys)`: a copy of the object without the given
keys. -/
def omitKeys (o : Obj) (keys : List String) : Obj :=
  o.filter (fun kv => !(keys.contains kv.1))

/-- Own-property test: the object has a property of that name. -/
def Obj.hasKey (o : Obj) (k : String) : Bool := o.any (fun kv => kv.1 = k)

/-- The property names every plain object inherits from `Object.prototype`; the
operator `in` answers true for them on any object literal. -/
def objectPrototypeKeys : List String :=
  ["constructor", "__defineGetter__", "__defineSetter__", "hasOwnProperty",
   "__lookupGetter__", "__lookupSetter__", "isPrototypeOf", "propertyIsEnumerable",
   "toString", "valueOf", "__proto__", "toLocaleString"]

/-- The length of a JavaScript string, in UTF-16 code units. -/
def jsLength (s : String) : Nat :=
  (s.data.map (fun c => if c.toNat < 65536 then 1 else 2)).sum

/-! ## sign -/

/-- The entry `urls.api` of `describe` (line 39). -/
def apiUrl : String := "https://api.staging.theocean.trade/api"

/-- The entry `version` of `describe` (line 20). -/
def version : String := "v0"

/-- What `sign` returns: `url`, `method`, `body`, `headers`. -/
structure Request where
  url : String
  method : String
  body : JsVal
  headers : JsVal

/-- The values the private branch of `sign` computes before the HMAC (lines 857-867):
the final url, the body, the timestamp string and the message `prehash`. -/
structure Prehash where
  url : String
  body : JsVal
  timestamp : String
  prehash : String

/-- Source `sign`, private branch, lines 857-867: the timestamp string, the message
`prehash` and, depending on the method, the body or the query string. -/
def signPrehash (env : Env) (this : Exchange) (seconds : Nat) (url method : String)
    (query : Obj) (body : JsVal) : Prehash :=
  let timestamp := toString seconds
  let prehash := this.apiKey ++ timestamp ++ method
  if method = "POST" then
    let body := json query
    Prehash.mk url (JsVal.str body) timestamp (prehash ++ body)
  else
    let url := if query.length ≠ 0 then url ++ "?" ++ env.urlencode query else url
    Prehash.mk url body timestamp (prehash ++ json [])

/-- Source `sign` (lines 852-882); `seconds` is the clock reading `this.seconds ()`,
and `this.encode` is the identity on strings. -/
def sign (env : Env) (this : Exchange) (seconds : Nat) (path api method : String)
    (params : Obj) (headers body : JsVal) : Except Err Request :=
  let url := apiUrl ++ "/" ++ version ++ "/" ++ env.implodeParams path params
  let query := omitKeys params (env.extractParams path)
  if api = "private" then
    match env.checkRequiredCredentials this with
    | Except.error e => Except.error e
    | Except.ok _ =>
      let pre := signPrehash env this seconds url method query body
      let signature := env.hmac pre.prehash this.secret "sha256" "base64"
      let headers := JsVal.obj
        [("TOX-ACCESS-KEY", JsVal.str this.apiKey),
         ("TOX-ACCESS-SIGN", JsVal.str signature),
         ("TOX-ACCESS-TIMESTAMP", JsVal.str pre.timestamp),
         ("Content-Type", JsVal.str "application/json")]
      Except.ok (Request.mk pre.url method pre.body headers)
  else if api = "public" then
    let url := if query.length ≠ 0 then url ++ "?" ++ env.urlencode query else url
    Except.ok (Request.mk url method body headers)
  else Except.ok (Request.mk url method body headers)

/-! ## handleErrors -/

/-- The error classes named in the table `exceptions`. -/
inductive ErrClass where
  | ExchangeError : ErrClass
  | AuthenticationError : ErrClass
  deriving DecidableEq, Repr

/-- Construct an error of the class with the given message. -/
def ErrClass.create : ErrClass → String → Err
  | ErrClass.ExchangeError, msg => Err.ExchangeError msg
  | ErrClass.AuthenticationError, msg => Err.AuthenticationError msg

/-- The table `exceptions` of `describe` (lines 73-78). -/
def exceptions : List (String × ErrClass) :=
  [("Schema validation failed for \x27query\x27", ErrClass.ExchangeError),
   ("Logic validation failed for \x27query\x27", ErrClass.ExchangeError),
   ("Schema validation failed for \x27body\x27", ErrClass.ExchangeError),
   ("Logic validation failed for \x27body\x27", ErrClass.ExchangeError)]

/-- Lines 901-908 of `handleErrors`: `message in exceptions` is true for the own keys
of the table and for the names inherited from `Object.prototype`; the statement
`throw new exceptions[message] (feedback)` then constructs the mapped class, throws the
string object `new Object (feedback)` for `constructor`, and fails with a `TypeError`
for the other inherited names, none of which is a constructor. -/
def throwFeedback (message : Option String) (feedback : String) : Err :=
  let key := message.getD "undefined"
  match exceptions.lookup key with
  | some cls => cls.create feedback
  | none =>
    if key ∈ objectPrototypeKeys then
      if key = "constructor" then Err.Thrown feedback else Err.TypeError
    else Err.ExchangeError feedback

/-- Source `handleErrors` (lines 884-911): `Except.ok ()` is a plain return (fall back
to the default handler), `Except.error` a throw. -/
def handleErrors (env : Env) (this : Exchange)
    (_httpCode _reason _url _method _headers : JsVal) (body : JsVal) : Except Err Unit :=
  match body with
  | JsVal.str body =>
    if jsLength body < 2 then Except.ok ()
    else if body = "\x27Authentication failed\x27" then
      Except.error (Err.AuthenticationError (this.id ++ " " ++ body))
    else if body.data.head? = some '\x7b' ∨ body.data.head? = some '[' then
      match env.parseJson body with
      | none => Except.error Err.SyntaxError
      | some (JsVal.obj response) =>
        if Obj.hasKey response "errors" then
          let message := env.safeString (JsVal.obj response) "error"
          let feedback := this.id ++ " " ++ json response
          Except.error (throwFeedback message feedback)
        else Except.ok ()
      | some (JsVal.arr _) => Except.ok ()
      | some _ => Except.error Err.TypeError
    else Except.ok ()
  | _ => Except.ok ()

/-! ## parseOrderStatus -/

/-- What a property read with a computed key on an object literal of strings gives: a
string, or the value that `Object.prototype` holds under an inherited name. -/
inductive StatusValue where
  | str (s : String) : StatusValue
  | inherited (name : String) : StatusValue
  deriving DecidableEq, Repr

/-- The table `statuses` of `parseOrderStatus` (lines 725-730). -/
def statuses : List (String × String) :=
  [("0", "open"), ("1", "closed"), ("2", "canceled"), ("3", "canceled")]

/-- Source `parseOrderStatus` (lines 724-734) on a status string: `status in statuses`
is true for the four keys of the table and for the names inherited from
`Object.prototype`, and `statuses[status]` is then the value found under that name. -/
def parseOrderStatus (status : String) : StatusValue :=
  match statuses.lookup status with
  | some v => StatusValue.str v
  | none =>
    if status ∈ objectPrototypeKeys then StatusValue.inherited status
    else StatusValue.str status

/-! ## createOrder, the whole method -/

/-- The property read `value['name']` for one of the names the file reads this way
(`baseId`, `quoteId`, `precision`, `price`), none of which a built-in prototype defines:
a `TypeError` on `undefined`, the own property on a plain object, and `undefined` on a
string, a number or an array. -/
def readNamed : JsVal → String → Except Err JsVal
  | JsVal.undefined, _ => Except.error Err.TypeError
  | JsVal.obj fields, name => Except.ok (Obj.get fields name)
  | _, _ => Except.ok JsVal.undefined

/-- The array index a property name denotes, if any: the name is the decimal text of a
number, written without leading zeros. -/
def arrayIndex (name : String) : Option Nat :=
  match name.data with
  | [] => none
  | ['0'] => some 0
  | '0' :: _ => none
  | digits => parseDigits decVal 10 digits 0

/-- The property read `this.markets[symbol]` of line 459, as far as the reads
`['precision']['price']` that follow it can tell: the own property of the table under that
name (the element at that index, for an array), or `none` when the table has no such
property.  The read then gives `undefined`, or what a built-in prototype holds under the
name (a function, a number, a character of a string, `Object.prototype`), and on each of
these `['precision']` throws or is `undefined`, so that the chain throws a `TypeError`. -/
def marketsEntry : JsVal → String → Option JsVal
  | JsVal.obj fields, symbol =>
    if Obj.hasKey fields symbol then some (Obj.get fields symbol) else none
  | JsVal.arr items, symbol =>
    match arrayIndex symbol with
    | some index => items.get? index
    | none => none
  | _, _ => none

/-- Source `priceToPrecision` (lines 458-460): the argument
`this.markets[symbol]['precision']['price']` is evaluated, and may throw, before the
call. -/
def priceToPrecision (env : Env) (symbol : String) (price : JsVal) : Except Err JsVal :=
  match marketsEntry env.markets symbol with
  | none => Except.error Err.TypeError
  | some entry =>
    match readNamed entry "precision" with
    | Except.error e => Except.error e
    | Except.ok precision =>
      match readNamed precision "price" with
      | Except.error e => Except.error e
      | Except.ok pricePrecision =>
        env.decimalToPrecision price pricePrecision env.precisionMode

/-- The object `reserveRequest` of `createOrder` (lines 562-572), its properties
evaluated in the order of the literal; a throw of one of them, or of `priceToPrecision`
for a limit order, leaves the method before anything is logged. -/
def reserveRequest (env : Env) (lib : Lib) (this : Exchange) (market : JsVal)
    (symbol type side : String) (amount price : JsVal) : Except Err Obj :=
  match readNamed market "baseId" with
  | Except.error e => Except.error e
  | Except.ok baseId =>
    match readNamed market "quoteId" with
    | Except.error e => Except.error e
    | Except.ok quoteId =>
      match env.amountToPrecision symbol amount with
      | Except.error e => Except.error e
      | Except.ok precise =>
        match env.toWei precise with
        | Except.error e => Except.error e
        | Except.ok orderAmount =>
          let reserveRequest : Obj :=
            [("walletAddress", JsVal.str (lib.toLowerCase this.uid)),
             ("baseTokenAddress", baseId),
             ("quoteTokenAddress", quoteId),
             ("side", JsVal.str side),
             ("orderAmount", orderAmount),
             ("feeOption", JsVal.str "feeInNative")]
          if type = "limit" then
            match priceToPrecision env symbol price with
            | Except.error e => Except.error e
            | Except.ok price => Except.ok (reserveRequest.set "price" price)
          else Except.ok reserveRequest

/-- The name `method` of `createOrder` (line 573). -/
def orderMethod (env : Env) (type : String) : String :=
  "privatePost" ++ env.capitalize type ++ "Order"

/-- The name `reserveMethod` of `createOrder` (line 574). -/
def reserveMethod (env : Env) (type : String) : String := orderMethod env type ++ "Reserve"

/-- The name `placeMethod` of `createOrder` (line 654). -/
def placeMethod (env : Env) (type : String) : String := orderMethod env type ++ "Place"

/-- What a run does that is visible outside: a call of `log` with its arguments, or
a call of a relay endpoint method `this[method] (request)`. -/
inductive Event where
  | log (args : List JsVal) : Event
  | call (method : String) (request : JsVal) : Event

/-- The events of a run and how it ended. -/
structure Trace where
  events : List Event
  outcome : Outcome JsVal

/-- Source `createOrder` (lines 559-705).  The reserve call of line 577 and the place
call of line 657 are commented out, so no relay endpoint is called: once the reserve
request is built the run logs it, then goes on from line 641 with the hard-coded
reservation response. -/
def createOrder (env : Env) (lib : Lib) (this : Exchange) (symbol type side : String)
    (amount price : JsVal) (_params : Obj) : Trace :=
  match env.market symbol with
  | Except.error e => Trace.mk [] (Outcome.threw e)
  | Except.ok market =>
    match reserveRequest env lib this market symbol type side amount price with
    | Except.error e => Trace.mk [] (Outcome.threw e)
    | Except.ok reserveRequest =>
      let rest := createOrderFrom lib this reserveResponse
      Trace.mk (Event.log [JsVal.obj reserveRequest] :: rest.log.map Event.log) rest.outcome

/-- The market `REP/WETH` of the sample table of markets. -/
def sampleMarket : JsVal :=
  JsVal.obj
    [("baseId", JsVal.str "0x6ff6c0ff1d68b964901f986d4c9fa3ac68346570"),
     ("quoteId", JsVal.str "0xd0a1e359811322d97991e03f863a0c30c2cf029c"),
     ("precision", JsVal.obj [("amount", JsVal.str "18"), ("price", JsVal.str "18")])]

/-- A small instance of the inherited helpers, with the one market `REP/WETH`; its
`parseJson` reads the two sample bodies used below and rejects every other text. -/
def sampleEnv : Env where
  market := fun symbol =>
    if symbol = "REP/WETH" then Except.ok sampleMarket
    else Except.error (Err.ExchangeError ("theocean does not have market symbol " ++ symbol))
  markets := JsVal.obj [("REP/WETH", sampleMarket)]
  precisionMode := JsVal.undefined
  amountToPrecision := fun _ amount => Except.ok amount
  decimalToPrecision := fun price _ _ => Except.ok price
  toWei := fun amount => Except.ok amount
  capitalize := fun s =>
    match s.data with
    | [] => s
    | c :: rest => String.mk (c.toUpper :: rest)
  implodeParams := fun path _ => path
  extractParams := fun _ => []
  urlencode := fun query => joinComma (query.map (fun kv => kv.1))
  checkRequiredCredentials := fun _ => Except.ok ()
  hmac := fun message key _ _ => message ++ key
  parseJson := fun body =>
    if body = "\x7b\"error\":\"toString\",\"errors\":[]\x7d" then
      some (JsVal.obj [("error", JsVal.str "toString"), ("errors", JsVal.arr [])])
    else if body = "\x7b\"message\":\"Logic validation failed for \x27query\x27\",\"errors\":[]\x7d" then
      some (JsVal.obj [("message", JsVal.str "Logic validation failed for \x27query\x27"),
        ("errors", JsVal.arr [])])
    else none
  safeString := fun o k =>
    match o.get k with
    | JsVal.str s => some s
    | _ => none

/-- The sample helpers with an empty table of markets. -/
def sampleEnvNoMarkets : Env := { sampleEnv with markets := JsVal.obj [] }

/-- The request `sign` returns for a private `DELETE` of `order/0x00` by the sample
exchange at clock reading 1534651346. -/
def sampleDeleteRequest : Request :=
  Request.mk (apiUrl ++ "/" ++ version ++ "/" ++ "order/0x00") "DELETE" JsVal.undefined
    (JsVal.obj
      [("TOX-ACCESS-KEY", JsVal.str "key"),
       ("TOX-ACCESS-SIGN", JsVal.str "key1534651346DELETE\x7b\x7dsecret"),
       ("TOX-ACCESS-TIMESTAMP", JsVal.str "1534651346"),
       ("Content-Type", JsVal.str "application/json")])

/-- A decimal string: a non-empty string of the digits `0` to `9`. -/
def isDecimalString : JsVal → Bool
  | JsVal.str s => !s.data.isEmpty && s.data.all (fun c => decide (48 ≤ c.toNat ∧ c.toNat ≤ 57))
  | _ => false

/-! ## What a logged value shows -/

/-- Whether the characters `run` occur in a text as consecutive characters. -/
def occursIn (run : List Char) : List Char → Bool
  | [] => run.isEmpty
  | c :: rest => run.isPrefixOf (c :: rest) || occursIn run rest

/-- A text shows the private key when the hexadecimal digits of the key, that is the key
without its `0x` prefix (`this.privateKey.slice (2)`, the secret handed to the signing
primitives), occur in it as consecutive characters.  A text that is the key, or that
contains the key with or without its prefix, shows it. -/
def showsKey (key text : String) : Bool := occursIn (key.data.drop 2) text.data

/-- The texts in which a `bn.js` number is written out: its decimal digits
(`toString ()`) and its hexadecimal digits (`toString (16)`, `toJSON`, `inspect`). -/
def bnTexts (n : Int) : List String :=
  [(if n < 0 then "-" else "") ++ String.mk (Nat.toDigits 10 n.natAbs),
   (if n < 0 then "-" else "") ++ String.mk (Nat.toDigits 16 n.natAbs)]

mutual
/-- Whether a text that satisfies `p` is found in a value: the value itself when it is a
string, a text of a `bn.js` number, an element of an array, the name or the value of a
property of an object, at any depth. -/
def anyText (p : String → Bool) : JsVal → Bool
  | JsVal.undefined => false
  | JsVal.str s => p s
  | JsVal.bn n => (bnTexts n).any p
  | JsVal.arr items => anyTextItems p items
  | JsVal.obj fields => anyTextFields p fields
/-- Whether a text that satisfies `p` is found in an element of an array. -/
def anyTextItems (p : String → Bool) : List JsVal → Bool
  | [] => false
  | v :: rest => anyText p v || anyTextItems p rest
/-- Whether a text that satisfies `p` is found in a property of an object, its name
included. -/
def anyTextFields (p : String → Bool) : List (String × JsVal) → Bool
  | [] => false
  | (k, v) :: rest => p k || anyText p v || anyTextFields p rest
end

/-- A value holds the private key: it is a text that shows the key, or a text that shows
the key is one of its components. -/
def holdsKey (key : String) (v : JsVal) : Bool := anyText (showsKey key) v

/-- A well-formed private key: `0x` followed by the 64 hexadecimal digits of a 32-byte
secret. -/
def validPrivateKey (key : String) : Bool :=
  match key.data with
  | '0' :: 'x' :: digits => digits.length == 64 && digits.all (fun c => (hexVal c).isSome)
  | _ => false

/-- The values that a run of `signOrder` on `order` obtains from the digest and from the
signing primitives and then logs do not hold the private key: the hash text (line 529),
the `(v, r, s)` of `sig3` (line 536), the signature object returned by `acc.sign`
(line 534) and the `(v, r, s)` of `sig2` (line 535). -/
def SignerOutputsHideKey (lib : Lib) (this : Exchange) (order : Obj) : Prop :=
  ∀ hash : String, signOrderHash lib this order = Except.ok hash →
    showsKey this.privateKey hash = false ∧
    (∀ sig3 : ECSig,
      lib.ecsign (bufferFromHex (hash.data.drop 2))
        (bufferFromHex (this.privateKey.data.drop 2)) = Except.ok sig3 →
      holdsKey this.privateKey (sigTriplet sig3) = false) ∧
    (∀ (acc : Account) (signature : JsVal),
      lib.decryptAccountFromPrivateKey this.privateKey = Except.ok acc →
      acc.sign hash (String.mk (this.privateKey.data.drop 2)) = Except.ok signature →
      holdsKey this.privateKey signature = false ∧
      ∀ (messageHash : String) (sig2 : ECSig),
        signature.get "messageHash" = JsVal.str messageHash →
        lib.ecsign (bufferFromHex (messageHash.data.drop 2))
          (bufferFromHex (this.privateKey.data.drop 2)) = Except.ok sig2 →
        holdsKey this.privateKey (sigTriplet sig2) = false)

/-- The account of `keyedLib`: the message hash it reports is the hash it is given,
offset by the key it is given. -/
def keyedAccount : Account where
  sign := fun hash key =>
    Except.ok (JsVal.obj
      [("messageHash", JsVal.str ("0x" ++ String.mk (toHex (toBytesBE 32
        (fromBytesBE (bufferFromHex (hash.data.drop 2)) +
          fromBytesBE (bufferFromHex key.data))))))])

/-- An instance of the primitives whose signatures depend on the key they are given,
as those of a signer do. -/
def keyedLib : Lib :=
  { sampleLib with
    decryptAccountFromPrivateKey := fun _ => Except.ok keyedAccount
    ecsign := fun digest key =>
      Except.ok
        { v := 27 + fromBytesBE key % 2
          r := toBytesBE 32 (fromBytesBE digest + fromBytesBE key)
          s := toBytesBE 32 (fromBytesBE digest + 2 * fromBytesBE key) } }

/-- An exchange object whose `uid` has been given the text of its private key. -/
def leakExchange : Exchange where
  id := "theocean"
  uid := "0x4c0883a69102937d6231471b5dbb6204fe5129617082792ae468d01a3f362318"
  privateKey := "0x4c0883a69102937d6231471b5dbb6204fe5129617082792ae468d01a3f362318"
  apiKey := "key"
  secret := "secret"

/-! ## request -/

mutual
/-- The method call `value.toString ()`: `none` where it throws a `TypeError`.  It throws
on `undefined`, which has no properties, and on a plain object with an own property
`toString`: no value of `JsVal` is a function, so that property is not callable.  A
string is itself, a `bn.js` number its decimal text, an array its elements joined by
commas (`none` when the conversion of an element throws), and a plain object without an
own `toString` the text `[object Object]` of `Object.prototype.toString`. -/
def toStringJs : JsVal → Option String
  | JsVal.undefined => none
  | JsVal.str s => some s
  | JsVal.bn n => some ((if n < 0 then "-" else "") ++ String.mk (Nat.toDigits 10 n.natAbs))
  | JsVal.arr items =>
    match toStringItems items with
    | some texts => some (joinComma texts)
    | none => none
  | JsVal.obj fields =>
    if Obj.hasKey fields "toString" then none else some "[object Object]"
/-- The texts of the elements of an array inside `Array.prototype.join`: an `undefined`
element gives the empty text, any other element its conversion to a string, which for
the values of `JsVal` succeeds and fails as its `toString ()` does; `none` when the
conversion of an element throws. -/
def toStringItems : List JsVal → Option (List String)
  | [] => some []
  | JsVal.undefined :: rest =>
    match toStringItems rest with
    | some texts => some ("" :: texts)
    | none => none
  | v :: rest =>
    match toStringJs v with
    | none => none
    | some text =>
      match toStringItems rest with
      | some texts => some (text :: texts)
      | none => none
end

/-- Source `request`, lines 915-921: what is done with the awaited response. -/
def requestResponse (env : Env) (this : Exchange) (response : JsVal) : Except Err JsVal :=
  match response with
  | JsVal.str text =>
    if text.data.head? = some '\x7b' ∨ text.data.head? = some '[' then
      match env.parseJson text with
      | some value => Except.ok value
      | none => Except.error Err.SyntaxError
    else Except.ok (JsVal.str text)
  | other =>
    match toStringJs other with
    | some text =>
      Except.error (Err.ExchangeError (this.id ++ " returned a non-string response: " ++ text))
    | none => Except.error Err.TypeError

/-- Source `request` (lines 913-922); `fetch2` is the inherited transport call, whose
result (or throw) is awaited first. -/
def request (env : Env) (this : Exchange)
    (fetch2 : String → String → String → Obj → JsVal → JsVal → Except Err JsVal)
    (path api method : String) (params : Obj) (headers body : JsVal) : Except Err JsVal :=
  match fetch2 path api method params headers body with
  | Except.error e => Except.error e
  | Except.ok response => requestResponse env this response

/-- A transport that answers every call with the same response. -/
def constantFetch (response : JsVal) :
    String → String → String → Obj → JsVal → JsVal → Except Err JsVal :=
  fun _ _ _ _ _ _ => Except.ok response

/-- An instance of the inherited helpers for the path `order/{orderHash}`: the
placeholder is the one parameter the path consumes, and the query string lists the
names of the remaining parameters. -/
def samplePathEnv : Env :=
  { sampleEnv with
    extractParams := fun _ => ["orderHash"]
    implodeParams := fun _ params =>
      match params.get "orderHash" with
      | JsVal.str hash => "order/" ++ hash
      | _ => "order/" }

/-! ## Auxiliary facts -/

theorem Obj.get_set_same (o : Obj) (k : String) (v : JsVal) : (o.set k v).get k = v := by
  induction o with
  | nil => simp [Obj.set, Obj.get]
  | cons kv rest ih =>
    obtain ⟨k', v'⟩ := kv
    by_cases h : k' = k
    · simp [Obj.set, Obj.get, h]
    · simp [Obj.set, Obj.get, h, ih]

theorem Obj.get_set_ne (o : Obj) (k k' : String) (v : JsVal) (h : k' ≠ k) :
    (o.set k v).get k' = o.get k' := by
  induction o with
  | nil => simp [Obj.set, Obj.get, Ne.symm h]
  | cons kv rest ih =>
    obtain ⟨k'', v''⟩ := kv
    by_cases h1 : k'' = k
    · subst h1
      simp [Obj.set, Obj.get, Ne.symm h]
    · by_cases h2 : k'' = k'
      · subst h2
        simp [Obj.set, Obj.get, h]
      · simp [Obj.set, Obj.get, h1, h2, ih]

theorem toBytesBE_length (len n : Nat) : (toBytesBE len n).length = len := by
  induction len generalizing n with
  | zero => rfl
  | succ len ih => simp [toBytesBE, ih]

theorem fromBytesBE_append_singleton (bs : Bytes) (b : Nat) :
    fromBytesBE (bs ++ [b]) = fromBytesBE bs * 256 + b := by
  simp [fromBytesBE, List.foldl_append]

theorem fromBytesBE_toBytesBE (len n : Nat) : fromBytesBE (toBytesBE len n) = n % 256 ^ len := by
  induction len generalizing n with
  | zero => simp [toBytesBE, fromBytesBE, Nat.mod_one]
  | succ len ih =>
    rw [toBytesBE, fromBytesBE_append_singleton, ih, pow_succ, Nat.mul_comm (256 ^ len) 256,
      Nat.mod_mul]
    omega

theorem parseNumber_error {v : JsVal} {e : Err} (h : parseNumber v = Except.error e) :
    e = Err.EncodingError := by
  unfold parseNumber at h
  split at h
  · cases h
  · split at h
    · cases h; rfl
    · split at h <;> cases h; rfl
    · split at h <;> cases h; rfl
  · cases h; rfl

theorem parseAddress_error {v : JsVal} {e : Err} (h : parseAddress v = Except.error e) :
    e = Err.EncodingError := by
  unfold parseAddress at h
  split at h
  · simp only at h
    split at h
    · split at h <;> cases h; rfl
    · cases h; rfl
  · cases h; rfl

theorem BN_ok_iff {v w : JsVal} :
    BN v = Except.ok w ↔ ∃ n, parseNumber v = Except.ok n ∧ w = JsVal.bn n := by
  unfold BN
  cases h : parseNumber v with
  | error e => simp
  | ok n => simp [eq_comm]

theorem BN_error {v : JsVal} {e : Err} (h : BN v = Except.error e) : e = Err.EncodingError := by
  unfold BN at h
  cases h' : parseNumber v with
  | error e' =>
    rw [h'] at h
    cases h
    exact parseNumber_error h'
  | ok n => rw [h'] at h; cases h

theorem encodeAddress_ok_iff {v : JsVal} {b : Bytes} :
    encodeAddress v = Except.ok b ↔ ∃ n, parseAddress v = Except.ok n ∧ b = toBytesBE 20 n := by
  unfold encodeAddress
  split
  · rename_i n h
    constructor
    · intro h'
      exact ⟨n, h, (Except.ok.inj h').symm⟩
    · rintro ⟨m, hm, hb⟩
      rw [h] at hm
      rw [hb, Except.ok.inj hm]
  · rename_i e h
    constructor
    · intro h'; exact Except.noConfusion h'
    · rintro ⟨m, hm, _⟩; rw [h] at hm; exact Except.noConfusion hm

theorem encodeUint256_ok_iff {v : JsVal} {b : Bytes} :
    encodeUint256 v = Except.ok b ↔
      ∃ n, parseNumber v = Except.ok n ∧ 0 ≤ n ∧ n < 2 ^ 256 ∧ b = toBytesBE 32 n.toNat := by
  unfold encodeUint256
  split
  · rename_i n h
    split
    · rename_i hr
      constructor
      · intro h'
        exact ⟨n, h, hr.1, hr.2, (Except.ok.inj h').symm⟩
      · rintro ⟨m, hm, _, _, hb⟩
        rw [h] at hm
        rw [hb, Except.ok.inj hm]
    · rename_i hr
      constructor
      · intro h'; exact Except.noConfusion h'
      · rintro ⟨m, hm, h0, h1, _⟩
        rw [h] at hm
        rw [Except.ok.inj hm] at hr
        exact absurd ⟨h0, h1⟩ hr
  · rename_i e h
    constructor
    · intro h'; exact Except.noConfusion h'
    · rintro ⟨m, hm, _⟩; rw [h] at hm; exact Except.noConfusion hm

theorem encodeAddress_error {v : JsVal} {e : Err} (h : encodeAddress v = Except.error e) :
    e = Err.EncodingError := by
  unfold encodeAddress at h
  split at h
  · cases h
  · rename_i e' h'
    cases h
    exact parseAddress_error h'

theorem encodeUint256_error {v : JsVal} {e : Err} (h : encodeUint256 v = Except.error e) :
    e = Err.EncodingError := by
  unfold encodeUint256 at h
  split at h
  · split at h
    · cases h
    · cases h; rfl
  · rename_i e' h'
    cases h
    exact parseNumber_error h'

theorem encodeField_error {t : SolType} {v : JsVal} {e : Err}
    (h : encodeField t v = Except.error e) : e = Err.EncodingError := by
  cases t with
  | address => exact encodeAddress_error h
  | uint256 => exact encodeUint256_error h

theorem solidityPack_cons_ok_iff {t : SolType} {ts : List SolType} {v : JsVal} {vs : List JsVal}
    {p : Bytes} :
    solidityPack (t :: ts) (v :: vs) = Except.ok p ↔
      ∃ b rest, encodeField t v = Except.ok b ∧ solidityPack ts vs = Except.ok rest ∧
        p = b ++ rest := by
  rw [solidityPack]
  cases h : encodeField t v with
  | error e => simp
  | ok b =>
    cases h' : solidityPack ts vs with
    | error e => simp
    | ok rest => simp [eq_comm]

theorem solidityPack_error {ts : List SolType} {vs : List JsVal} {e : Err}
    (h : solidityPack ts vs = Except.error e) : e = Err.EncodingError := by
  induction ts generalizing vs with
  | nil =>
    cases vs with
    | nil => simp [solidityPack] at h
    | cons v vs => simp [solidityPack] at h; exact h.symm
  | cons t ts ih =>
    cases vs with
    | nil => simp [solidityPack] at h; exact h.symm
    | cons v vs =>
      rw [solidityPack] at h
      cases h1 : encodeField t v with
      | error e' => rw [h1] at h; cases h; exact encodeField_error h1
      | ok b =>
        rw [h1] at h
        cases h2 : solidityPack ts vs with
        | error e' => rw [h2] at h; cases h; exact ih h2
        | ok rest => rw [h2] at h; cases h

theorem except_bind_ok_iff {α β : Type} {x : Except Err α} {f : α → Except Err β} {b : β} :
    (x >>= f) = Except.ok b ↔ ∃ a, x = Except.ok a ∧ f a = Except.ok b := by
  cases x with
  | error e => simp [bind, Except.bind]
  | ok a => simp [bind, Except.bind]

theorem except_bind_error {α β : Type} {x : Except Err α} {f : α → Except Err β} {e : Err}
    (h : (x >>= f) = Except.error e) :
    x = Except.error e ∨ ∃ a, x = Except.ok a ∧ f a = Except.error e := by
  cases x with
  | error e' => left; simpa [bind, Except.bind] using h
  | ok a => right; exact ⟨a, rfl, by simpa [bind, Except.bind] using h⟩

theorem solidityPack_nil_ok_iff {p : Bytes} : solidityPack [] [] = Except.ok p ↔ p = [] := by
  rw [solidityPack]
  constructor
  · intro h; exact (Except.ok.inj h).symm
  · intro h; rw [h]

theorem encodeUint256_bn_of_parse {v : JsVal} {n : Int} (h : parseNumber v = Except.ok n) :
    encodeField SolType.uint256 (JsVal.bn n) = encodeField SolType.uint256 v := by
  have hbn : parseNumber (JsVal.bn n) = Except.ok n := rfl
  simp only [encodeField, encodeUint256, h, hbn]

theorem signOrderPacked_ok_iff (order : Obj) (packed : Bytes) :
    signOrderPacked order = Except.ok packed ↔
      ∃ b1 b2 b3 b4 b5 b6 b7 b8 b9 b10 b11 b12,
        encodeField SolType.address (order.get "exchangeContractAddress") = Except.ok b1 ∧
        encodeField SolType.address (order.get "maker") = Except.ok b2 ∧
        encodeField SolType.address (order.get "taker") = Except.ok b3 ∧
        encodeField SolType.address (order.get "makerTokenAddress") = Except.ok b4 ∧
        encodeField SolType.address (order.get "takerTokenAddress") = Except.ok b5 ∧
        encodeField SolType.address (order.get "feeRecipient") = Except.ok b6 ∧
        encodeField SolType.uint256 (order.get "makerTokenAmount") = Except.ok b7 ∧
        encodeField SolType.uint256 (order.get "takerTokenAmount") = Except.ok b8 ∧
        encodeField SolType.uint256 (order.get "makerFee") = Except.ok b9 ∧
        encodeField SolType.uint256 (order.get "takerFee") = Except.ok b10 ∧
        encodeField SolType.uint256 (order.get "expirationUnixTimestampSec") = Except.ok b11 ∧
        encodeField SolType.uint256 (order.get "salt") = Except.ok b12 ∧
        packed = b1 ++ (b2 ++ (b3 ++ (b4 ++ (b5 ++ (b6 ++ (b7 ++ (b8 ++ (b9 ++ (b10 ++
          (b11 ++ (b12 ++ []))))))))))) := by
  simp only [signOrderPacked, signOrderUnpacked, signOrderTypes, except_bind_ok_iff, BN_ok_iff,
    pure, Except.pure]
  constructor
  · rintro ⟨_, ⟨_, ⟨n1, h1, rfl⟩, _, ⟨n2, h2, rfl⟩, _, ⟨n3, h3, rfl⟩, _, ⟨n4, h4, rfl⟩, _,
      ⟨n5, h5, rfl⟩, _, ⟨n6, h6, rfl⟩, hu⟩, hp⟩
    rw [← Except.ok.inj hu] at hp
    simp only [solidityPack_cons_ok_iff, solidityPack_nil_ok_iff] at hp
    obtain ⟨b1, _, e1, ⟨b2, _, e2, ⟨b3, _, e3, ⟨b4, _, e4, ⟨b5, _, e5, ⟨b6, _, e6, ⟨b7, _, e7,
      ⟨b8, _, e8, ⟨b9, _, e9, ⟨b10, _, e10, ⟨b11, _, e11, ⟨b12, _, e12, rfl, rfl⟩, rfl⟩, rfl⟩,
      rfl⟩, rfl⟩, rfl⟩, rfl⟩, rfl⟩, rfl⟩, rfl⟩, rfl⟩, rfl⟩ := hp
    rw [encodeUint256_bn_of_parse h1] at e7
    rw [encodeUint256_bn_of_parse h2] at e8
    rw [encodeUint256_bn_of_parse h3] at e9
    rw [encodeUint256_bn_of_parse h4] at e10
    rw [encodeUint256_bn_of_parse h5] at e11
    rw [encodeUint256_bn_of_parse h6] at e12
    exact ⟨b1, b2, b3, b4, b5, b6, b7, b8, b9, b10, b11, b12, e1, e2, e3, e4, e5, e6, e7, e8, e9,
      e10, e11, e12, rfl⟩
  · rintro ⟨b1, b2, b3, b4, b5, b6, b7, b8, b9, b10, b11, b12, e1, e2, e3, e4, e5, e6, e7, e8, e9,
      e10, e11, e12, rfl⟩
    obtain ⟨n1, h1, -⟩ := encodeUint256_ok_iff.mp e7
    obtain ⟨n2, h2, -⟩ := encodeUint256_ok_iff.mp e8
    obtain ⟨n3, h3, -⟩ := encodeUint256_ok_iff.mp e9
    obtain ⟨n4, h4, -⟩ := encodeUint256_ok_iff.mp e10
    obtain ⟨n5, h5, -⟩ := encodeUint256_ok_iff.mp e11
    obtain ⟨n6, h6, -⟩ := encodeUint256_ok_iff.mp e12
    rw [← encodeUint256_bn_of_parse h1] at e7
    rw [← encodeUint256_bn_of_parse h2] at e8
    rw [← encodeUint256_bn_of_parse h3] at e9
    rw [← encodeUint256_bn_of_parse h4] at e10
    rw [← encodeUint256_bn_of_parse h5] at e11
    rw [← encodeUint256_bn_of_parse h6] at e12
    refine ⟨_, ⟨_, ⟨n1, h1, rfl⟩, _, ⟨n2, h2, rfl⟩, _, ⟨n3, h3, rfl⟩, _, ⟨n4, h4, rfl⟩, _,
      ⟨n5, h5, rfl⟩, _, ⟨n6, h6, rfl⟩, rfl⟩, ?_⟩
    simp only [solidityPack_cons_ok_iff, solidityPack_nil_ok_iff]
    exact ⟨b1, _, e1, ⟨b2, _, e2, ⟨b3, _, e3, ⟨b4, _, e4, ⟨b5, _, e5, ⟨b6, _, e6, ⟨b7, _, e7,
      ⟨b8, _, e8, ⟨b9, _, e9, ⟨b10, _, e10, ⟨b11, _, e11, ⟨b12, _, e12, rfl, rfl⟩, rfl⟩, rfl⟩,
      rfl⟩, rfl⟩, rfl⟩, rfl⟩, rfl⟩, rfl⟩, rfl⟩, rfl⟩, rfl⟩

theorem signOrderHash_eq (lib : Lib) (this : Exchange) (order : Obj) :
    signOrderHash lib this order =
      Except.map (fun packed => "0x" ++ String.mk (toHex (lib.sha3 packed)))
        (signOrderPacked order) := by
  unfold signOrderHash signOrderPacked soliditySHA3
  cases signOrderUnpacked order with
  | error e => rfl
  | ok u =>
    simp only [bind, Except.bind, pure, Except.pure]
    cases solidityPack signOrderTypes u <;> rfl

theorem getOrderHashHex_eq (lib : Lib) (order : Obj) :
    getOrderHashHex lib order =
      Except.map (fun packed => "0x" ++ String.mk (toHex (lib.sha3 packed)))
        (signOrderPacked order) := by
  unfold getOrderHashHex signOrderPacked signOrderUnpacked soliditySHA3
  cases BN (order.get "makerTokenAmount") with
  | error e => rfl
  | ok a1 =>
  cases BN (order.get "takerTokenAmount") with
  | error e => rfl
  | ok a2 =>
  cases BN (order.get "makerFee") with
  | error e => rfl
  | ok a3 =>
  cases BN (order.get "takerFee") with
  | error e => rfl
  | ok a4 =>
  cases BN (order.get "expirationUnixTimestampSec") with
  | error e => rfl
  | ok a5 =>
  cases BN (order.get "salt") with
  | error e => rfl
  | ok a6 =>
    simp only [bind, Except.bind, pure, Except.pure, List.map, signOrderTypes]
    cases solidityPack _ _ <;> rfl

theorem signOrderPacked_error {order : Obj} {e : Err} (h : signOrderPacked order = Except.error e) :
    e = Err.EncodingError := by
  unfold signOrderPacked signOrderUnpacked at h
  rcases except_bind_error h with h | ⟨u, -, h⟩
  · rcases except_bind_error h with h | ⟨_, -, h⟩
    · exact BN_error h
    rcases except_bind_error h with h | ⟨_, -, h⟩
    · exact BN_error h
    rcases except_bind_error h with h | ⟨_, -, h⟩
    · exact BN_error h
    rcases except_bind_error h with h | ⟨_, -, h⟩
    · exact BN_error h
    rcases except_bind_error h with h | ⟨_, -, h⟩
    · exact BN_error h
    rcases except_bind_error h with h | ⟨_, -, h⟩
    · exact BN_error h
    · exact Except.noConfusion h
  · exact solidityPack_error h

theorem signOrder_outcome_of_packed_error (lib : Lib) (this : Exchange) (order : Obj) (e : Err)
    (h : signOrderPacked order = Except.error e) :
    (signOrder lib this order).outcome = Outcome.threw e := by
  have h1 : getOrderHashHex lib order = Except.error e := by
    rw [getOrderHashHex_eq, h]; rfl
  unfold signOrder
  rw [h1]

theorem signOrder_of_packed_error (lib : Lib) (this : Exchange) (order : Obj) (e : Err)
    (h : signOrderPacked order = Except.error e) :
    signOrder lib this order = Run.mk [] (Outcome.threw e) := by
  have h1 : getOrderHashHex lib order = Except.error e := by
    rw [getOrderHashHex_eq, h]; rfl
  unfold signOrder
  rw [h1]

theorem signOrder_never_returns (lib : Lib) (this : Exchange) (order : Obj) (v : JsVal) :
    (signOrder lib this order).outcome ≠ Outcome.returned v := by
  intro h
  unfold signOrder at h
  repeat' first
    | exact Outcome.noConfusion h
    | split at h
    | (dsimp only at h; split at h)

theorem marketOrder_get_maker (lib : Lib) (this : Exchange) (reserveResponse : Obj) :
    (marketOrder lib this reserveResponse).get "maker" = JsVal.str (lib.toLowerCase this.uid) := by
  simp only [marketOrder, extend, List.foldl]
  exact Obj.get_set_same _ _ _

theorem marketOrder_get_other (lib : Lib) (this : Exchange) (reserveResponse : Obj) (k : String)
    (hk : k ≠ "maker") :
    (marketOrder lib this reserveResponse).get k =
      (reserveResponse.get "unsignedMatchingOrder").get k := by
  simp only [marketOrder, extend, List.foldl]
  rw [Obj.get_set_ne _ _ _ _ hk]
  cases reserveResponse.get "unsignedMatchingOrder" <;> rfl

theorem encodeField_undefined (t : SolType) (b : Bytes) :
    encodeField t JsVal.undefined ≠ Except.ok b := by
  cases t <;> exact fun h => Except.noConfusion h

theorem signOrderPacked_error_of_field {order : Obj}
    (h : ∀ p, signOrderPacked order ≠ Except.ok p) :
    signOrderPacked order = Except.error Err.EncodingError := by
  cases hp : signOrderPacked order with
  | ok p => exact absurd hp (h p)
  | error e => rw [signOrderPacked_error hp]

theorem signOrderPacked_missing_field (order : Obj) (k : String)
    (hk : k ∈ addressFields ++ integerFields) (hmissing : order.get k = JsVal.undefined) :
    signOrderPacked order = Except.error Err.EncodingError := by
  apply signOrderPacked_error_of_field
  intro p hp
  obtain ⟨b1, b2, b3, b4, b5, b6, b7, b8, b9, b10, b11, b12, e1, e2, e3, e4, e5, e6, e7, e8, e9,
    e10, e11, e12, -⟩ := (signOrderPacked_ok_iff order p).mp hp
  simp only [addressFields, integerFields, List.cons_append, List.nil_append, List.mem_cons,
    List.mem_singleton, List.not_mem_nil, or_false] at hk
  rcases hk with rfl | rfl | rfl | rfl | rfl | rfl | rfl | rfl | rfl | rfl | rfl | rfl
  · rw [hmissing] at e1; exact encodeField_undefined _ _ e1
  · rw [hmissing] at e2; exact encodeField_undefined _ _ e2
  · rw [hmissing] at e3; exact encodeField_undefined _ _ e3
  · rw [hmissing] at e4; exact encodeField_undefined _ _ e4
  · rw [hmissing] at e5; exact encodeField_undefined _ _ e5
  · rw [hmissing] at e6; exact encodeField_undefined _ _ e6
  · rw [hmissing] at e7; exact encodeField_undefined _ _ e7
  · rw [hmissing] at e8; exact encodeField_undefined _ _ e8
  · rw [hmissing] at e9; exact encodeField_undefined _ _ e9
  · rw [hmissing] at e10; exact encodeField_undefined _ _ e10
  · rw [hmissing] at e11; exact encodeField_undefined _ _ e11
  · rw [hmissing] at e12; exact encodeField_undefined _ _ e12

theorem signOrderPacked_out_of_range (order : Obj) (k : String) (n : Int)
    (hk : k ∈ integerFields) (hn : parseNumber (order.get k) = Except.ok n)
    (hrange : n < 0 ∨ 2 ^ 256 - 1 < n) :
    signOrderPacked order = Except.error Err.EncodingError := by
  apply signOrderPacked_error_of_field
  intro p hp
  obtain ⟨b1, b2, b3, b4, b5, b6, b7, b8, b9, b10, b11, b12, e1, e2, e3, e4, e5, e6, e7, e8, e9,
    e10, e11, e12, -⟩ := (signOrderPacked_ok_iff order p).mp hp
  have key : ∀ b, encodeField SolType.uint256 (order.get k) ≠ Except.ok b := by
    intro b hb
    obtain ⟨m, hm, h0, h1, -⟩ := encodeUint256_ok_iff.mp hb
    rw [hn] at hm
    have hnm : n = m := Except.ok.inj hm
    subst hnm
    rcases hrange with h | h
    · exact absurd h0 (not_le.mpr h)
    · exact absurd h1 (not_lt.mpr (Int.le_of_sub_one_lt h))
  simp only [integerFields, List.mem_cons, List.mem_singleton, List.not_mem_nil, or_false] at hk
  rcases hk with rfl | rfl | rfl | rfl | rfl | rfl
  · exact key _ e7
  · exact key _ e8
  · exact key _ e9
  · exact key _ e10
  · exact key _ e11
  · exact key _ e12

theorem signOrderHash_of_packed_error (lib : Lib) (this : Exchange) (order : Obj) (e : Err)
    (h : signOrderPacked order = Except.error e) :
    signOrderHash lib this order = Except.error e := by
  rw [signOrderHash_eq, h]; rfl

theorem createOrderFrom_outcome_of_packed_error (lib : Lib) (this : Exchange)
    (reserveResponse : Obj) (e : Err)
    (h : signOrderPacked (marketOrder lib this reserveResponse) = Except.error e) :
    (createOrderFrom lib this reserveResponse).outcome = Outcome.threw e := by
  have hs := signOrder_outcome_of_packed_error lib this _ e h
  unfold createOrderFrom
  simp only [hs]

theorem toBytesBE_lt (len n : Nat) : ∀ x ∈ toBytesBE len n, x < 256 := by
  induction len generalizing n with
  | zero => intro x hx; simp [toBytesBE] at hx
  | succ len ih =>
    intro x hx
    rw [toBytesBE, List.mem_append] at hx
    rcases hx with hx | hx
    · exact ih _ x hx
    · rw [List.mem_singleton] at hx
      rw [hx]
      exact Nat.mod_lt _ (by decide)

theorem toBytesBE_zero (len : Nat) : toBytesBE len 0 = List.replicate len 0 := by
  induction len with
  | zero => rfl
  | succ len ih =>
    rw [toBytesBE, Nat.zero_div, ih, Nat.zero_mod, List.replicate_succ']

theorem toBytesBE_pad (k j n : Nat) (h : n < 256 ^ k) :
    toBytesBE (j + k) n = List.replicate j 0 ++ toBytesBE k n := by
  induction k generalizing n with
  | zero =>
    have hn : n = 0 := by simpa using h
    rw [hn, Nat.add_zero, toBytesBE_zero]
    simp [toBytesBE]
  | succ k ih =>
    have hdiv : n / 256 < 256 ^ k := by
      rw [Nat.div_lt_iff_lt_mul (by decide)]
      rw [pow_succ] at h
      exact h
    rw [← Nat.add_assoc, toBytesBE, ih _ hdiv, toBytesBE, List.append_assoc]

theorem toBytesBE_injective (len n m : Nat) (hn : n < 256 ^ len) (hm : m < 256 ^ len)
    (h : toBytesBE len n = toBytesBE len m) : n = m := by
  have h1 := fromBytesBE_toBytesBE len n
  have h2 := fromBytesBE_toBytesBE len m
  rw [Nat.mod_eq_of_lt hn] at h1
  rw [Nat.mod_eq_of_lt hm] at h2
  rw [← h1, ← h2, h]

theorem hexVal_lt {c : Char} {d : Nat} (h : hexVal c = some d) : d < 16 := by
  unfold hexVal at h
  split at h
  · rename_i hc
    cases h
    omega
  · split at h
    · rename_i hc
      cases h
      omega
    · split at h
      · rename_i hc
        cases h
        omega
      · cases h

theorem parseDigits_hex_lt (cs : List Char) (acc n : Nat)
    (h : parseDigits hexVal 16 cs acc = some n) : n < (acc + 1) * 16 ^ cs.length := by
  induction cs generalizing acc with
  | nil =>
    simp only [parseDigits, Option.some.injEq] at h
    simp only [List.length_nil, pow_zero, Nat.mul_one]
    omega
  | cons c rest ih =>
    rw [parseDigits] at h
    cases hc : hexVal c with
    | none => rw [hc] at h; cases h
    | some d =>
      rw [hc] at h
      have hd := hexVal_lt hc
      have := ih _ h
      calc n < (acc * 16 + d + 1) * 16 ^ rest.length := this
        _ ≤ ((acc + 1) * 16) * 16 ^ rest.length := by
            apply Nat.mul_le_mul_right
            omega
        _ = (acc + 1) * 16 ^ (c :: rest).length := by
            rw [List.length_cons, pow_succ, Nat.mul_assoc, Nat.mul_comm 16]

theorem parseAddress_lt {v : JsVal} {n : Nat} (h : parseAddress v = Except.ok n) :
    n < 256 ^ 20 := by
  unfold parseAddress at h
  split at h
  · rename_i s
    simp only at h
    split at h
    · rename_i hlen
      split at h
      · rename_i m hm
        have hnm : m = n := Except.ok.inj h
        subst hnm
        have hb := parseDigits_hex_lt _ _ _ hm
        have hpow : 16 ^ (stripHexPrefix s.data).length ≤ 16 ^ 40 :=
          Nat.pow_le_pow_right (by decide) hlen
        calc m < (0 + 1) * 16 ^ (stripHexPrefix s.data).length := hb
          _ = 16 ^ (stripHexPrefix s.data).length := by rw [Nat.zero_add, Nat.one_mul]
          _ ≤ 16 ^ 40 := hpow
          _ = 256 ^ 20 := by norm_num
      · exact Except.noConfusion h
    · exact Except.noConfusion h
  · exact Except.noConfusion h

theorem encodeField_lt {t : SolType} {v : JsVal} {b : Bytes}
    (h : encodeField t v = Except.ok b) : ∀ x ∈ b, x < 256 := by
  cases t with
  | address =>
    obtain ⟨n, -, hb⟩ := encodeAddress_ok_iff.mp h
    rw [hb]; exact toBytesBE_lt _ _
  | uint256 =>
    obtain ⟨n, -, -, -, hb⟩ := encodeUint256_ok_iff.mp h
    rw [hb]; exact toBytesBE_lt _ _

theorem encodeField_length {t : SolType} {v : JsVal} {b : Bytes}
    (h : encodeField t v = Except.ok b) :
    b.length = fieldWidth t := by
  cases t with
  | address =>
    obtain ⟨n, -, hb⟩ := encodeAddress_ok_iff.mp h
    rw [hb, toBytesBE_length]; rfl
  | uint256 =>
    obtain ⟨n, -, -, -, hb⟩ := encodeUint256_ok_iff.mp h
    rw [hb, toBytesBE_length]; rfl

theorem solidityPack_length {ts : List SolType} {vs : List JsVal} {p : Bytes}
    (h : solidityPack ts vs = Except.ok p) : p.length = (ts.map fieldWidth).sum := by
  induction ts generalizing vs p with
  | nil =>
    cases vs with
    | nil => rw [solidityPack_nil_ok_iff.mp h]; rfl
    | cons v vs => simp [solidityPack] at h
  | cons t ts ih =>
    cases vs with
    | nil => simp [solidityPack] at h
    | cons v vs =>
      obtain ⟨b, rest, hb, hrest, hp⟩ := solidityPack_cons_ok_iff.mp h
      rw [hp, List.length_append, encodeField_length hb, ih hrest, List.map_cons, List.sum_cons]

theorem solidityPack_lt {ts : List SolType} {vs : List JsVal} {p : Bytes}
    (h : solidityPack ts vs = Except.ok p) : ∀ x ∈ p, x < 256 := by
  induction ts generalizing vs p with
  | nil =>
    cases vs with
    | nil => rw [solidityPack_nil_ok_iff.mp h]; intro x hx; cases hx
    | cons v vs => simp [solidityPack] at h
  | cons t ts ih =>
    cases vs with
    | nil => simp [solidityPack] at h
    | cons v vs =>
      obtain ⟨b, rest, hb, hrest, hp⟩ := solidityPack_cons_ok_iff.mp h
      intro x hx
      rw [hp, List.mem_append] at hx
      rcases hx with hx | hx
      · exact encodeField_lt hb x hx
      · exact ih hrest x hx

theorem signOrderPacked_length {order : Obj} {p : Bytes}
    (h : signOrderPacked order = Except.ok p) : p.length = 312 := by
  unfold signOrderPacked at h
  obtain ⟨u, -, hu⟩ := except_bind_ok_iff.mp h
  rw [solidityPack_length hu]
  rfl

theorem encodeField_address_inj {v w : JsVal} {b : Bytes}
    (hv : encodeField SolType.address v = Except.ok b)
    (hw : encodeField SolType.address w = Except.ok b) :
    parseAddress v = parseAddress w := by
  obtain ⟨n, hn, hb⟩ := encodeAddress_ok_iff.mp hv
  obtain ⟨m, hm, hb'⟩ := encodeAddress_ok_iff.mp hw
  have := toBytesBE_injective 20 n m (parseAddress_lt hn) (parseAddress_lt hm) (hb.symm.trans hb')
  rw [hn, hm, this]

theorem encodeField_uint256_inj {v w : JsVal} {b : Bytes}
    (hv : encodeField SolType.uint256 v = Except.ok b)
    (hw : encodeField SolType.uint256 w = Except.ok b) :
    parseNumber v = parseNumber w := by
  obtain ⟨n, hn, hn0, hn1, hb⟩ := encodeUint256_ok_iff.mp hv
  obtain ⟨m, hm, hm0, hm1, hb'⟩ := encodeUint256_ok_iff.mp hw
  have hpow : (256 : Nat) ^ 32 = 2 ^ 256 := by norm_num
  have hnlt : n.toNat < 256 ^ 32 := by
    rw [hpow]; omega
  have hmlt : m.toNat < 256 ^ 32 := by
    rw [hpow]; omega
  have := toBytesBE_injective 32 n.toNat m.toNat hnlt hmlt (hb.symm.trans hb')
  have hnm : n = m := by omega
  rw [hn, hm, hnm]

theorem append_inj_of_encode {t : SolType} {v w : JsVal} {b c r s : Bytes}
    (hv : encodeField t v = Except.ok b) (hw : encodeField t w = Except.ok c)
    (h : b ++ r = c ++ s) : b = c ∧ r = s :=
  List.append_inj h (by rw [encodeField_length hv, encodeField_length hw])

theorem signOrderPacked_inj {o1 o2 : Obj} {p : Bytes}
    (h1 : signOrderPacked o1 = Except.ok p) (h2 : signOrderPacked o2 = Except.ok p) :
    (∀ k ∈ addressFields, parseAddress (o1.get k) = parseAddress (o2.get k)) ∧
    (∀ k ∈ integerFields, parseNumber (o1.get k) = parseNumber (o2.get k)) := by
  obtain ⟨b1, b2, b3, b4, b5, b6, b7, b8, b9, b10, b11, b12, e1, e2, e3, e4, e5, e6, e7, e8, e9,
    e10, e11, e12, hp⟩ := (signOrderPacked_ok_iff o1 p).mp h1
  obtain ⟨c1, c2, c3, c4, c5, c6, c7, c8, c9, c10, c11, c12, f1, f2, f3, f4, f5, f6, f7, f8, f9,
    f10, f11, f12, hq⟩ := (signOrderPacked_ok_iff o2 p).mp h2
  rw [hp] at hq
  obtain ⟨r1, hq⟩ := append_inj_of_encode e1 f1 hq
  obtain ⟨r2, hq⟩ := append_inj_of_encode e2 f2 hq
  obtain ⟨r3, hq⟩ := append_inj_of_encode e3 f3 hq
  obtain ⟨r4, hq⟩ := append_inj_of_encode e4 f4 hq
  obtain ⟨r5, hq⟩ := append_inj_of_encode e5 f5 hq
  obtain ⟨r6, hq⟩ := append_inj_of_encode e6 f6 hq
  obtain ⟨r7, hq⟩ := append_inj_of_encode e7 f7 hq
  obtain ⟨r8, hq⟩ := append_inj_of_encode e8 f8 hq
  obtain ⟨r9, hq⟩ := append_inj_of_encode e9 f9 hq
  obtain ⟨r10, hq⟩ := append_inj_of_encode e10 f10 hq
  obtain ⟨r11, hq⟩ := append_inj_of_encode e11 f11 hq
  obtain ⟨r12, -⟩ := append_inj_of_encode e12 f12 hq
  rw [← r1] at f1; rw [← r2] at f2; rw [← r3] at f3; rw [← r4] at f4
  rw [← r5] at f5; rw [← r6] at f6; rw [← r7] at f7; rw [← r8] at f8
  rw [← r9] at f9; rw [← r10] at f10; rw [← r11] at f11; rw [← r12] at f12
  constructor
  · intro k hk
    simp only [addressFields, List.mem_cons, List.mem_singleton, List.not_mem_nil, or_false] at hk
    rcases hk with rfl | rfl | rfl | rfl | rfl | rfl
    · exact encodeField_address_inj e1 f1
    · exact encodeField_address_inj e2 f2
    · exact encodeField_address_inj e3 f3
    · exact encodeField_address_inj e4 f4
    · exact encodeField_address_inj e5 f5
    · exact encodeField_address_inj e6 f6
  · intro k hk
    simp only [integerFields, List.mem_cons, List.mem_singleton, List.not_mem_nil, or_false] at hk
    rcases hk with rfl | rfl | rfl | rfl | rfl | rfl
    · exact encodeField_uint256_inj e7 f7
    · exact encodeField_uint256_inj e8 f8
    · exact encodeField_uint256_inj e9 f9
    · exact encodeField_uint256_inj e10 f10
    · exact encodeField_uint256_inj e11 f11
    · exact encodeField_uint256_inj e12 f12

theorem validAddress_encodes {v : JsVal} (h : validAddress v = true) :
    ∃ b, encodeField SolType.address v = Except.ok b := by
  unfold validAddress at h
  split at h
  · rename_i n hn
    exact ⟨toBytesBE 20 n, encodeAddress_ok_iff.mpr ⟨n, hn, rfl⟩⟩
  · cases h

theorem validUint256_encodes {v : JsVal} (h : validUint256 v = true) :
    ∃ b, encodeField SolType.uint256 v = Except.ok b := by
  unfold validUint256 at h
  split at h
  · rename_i n hn
    have hr := of_decide_eq_true h
    exact ⟨toBytesBE 32 n.toNat, encodeUint256_ok_iff.mpr ⟨n, hn, hr.1, hr.2, rfl⟩⟩
  · cases h

theorem validOrder_packs {order : Obj} (h : validOrder order = true) :
    ∃ p, signOrderPacked order = Except.ok p := by
  simp only [validOrder, addressFields, integerFields, List.all_cons, List.all_nil,
    Bool.and_true, Bool.and_eq_true] at h
  obtain ⟨⟨a1, a2, a3, a4, a5, a6⟩, ⟨a7, a8, a9, a10, a11, a12⟩⟩ := h
  obtain ⟨b1, e1⟩ := validAddress_encodes a1
  obtain ⟨b2, e2⟩ := validAddress_encodes a2
  obtain ⟨b3, e3⟩ := validAddress_encodes a3
  obtain ⟨b4, e4⟩ := validAddress_encodes a4
  obtain ⟨b5, e5⟩ := validAddress_encodes a5
  obtain ⟨b6, e6⟩ := validAddress_encodes a6
  obtain ⟨b7, e7⟩ := validUint256_encodes a7
  obtain ⟨b8, e8⟩ := validUint256_encodes a8
  obtain ⟨b9, e9⟩ := validUint256_encodes a9
  obtain ⟨b10, e10⟩ := validUint256_encodes a10
  obtain ⟨b11, e11⟩ := validUint256_encodes a11
  obtain ⟨b12, e12⟩ := validUint256_encodes a12
  exact ⟨_, (signOrderPacked_ok_iff order _).mpr ⟨b1, b2, b3, b4, b5, b6, b7, b8, b9, b10, b11,
    b12, e1, e2, e3, e4, e5, e6, e7, e8, e9, e10, e11, e12, rfl⟩⟩

theorem signOrderUnpacked_congr {o1 o2 : Obj}
    (h : ∀ k ∈ addressFields ++ integerFields, o1.get k = o2.get k) :
    signOrderUnpacked o1 = signOrderUnpacked o2 := by
  have hk : ∀ k, k ∈ addressFields ++ integerFields → o1.get k = o2.get k := h
  unfold signOrderUnpacked
  rw [hk "exchangeContractAddress" (by decide), hk "maker" (by decide), hk "taker" (by decide),
    hk "makerTokenAddress" (by decide), hk "takerTokenAddress" (by decide),
    hk "feeRecipient" (by decide), hk "makerTokenAmount" (by decide),
    hk "takerTokenAmount" (by decide), hk "makerFee" (by decide), hk "takerFee" (by decide),
    hk "expirationUnixTimestampSec" (by decide), hk "salt" (by decide)]

theorem hexDigit_mem (n : Nat) : hexDigit n ∈ "0123456789abcdef".data := by
  unfold hexDigit
  by_cases h : n < 16
  · interval_cases n <;> decide
  · rw [List.getD_eq_default _ _ (by simpa using (Nat.le_of_not_lt h))]
    decide

theorem toHex_length (bs : Bytes) : (toHex bs).length = 2 * bs.length := by
  induction bs with
  | nil => rfl
  | cons b rest ih => simp only [toHex, List.length_cons, ih]; omega

theorem toHex_mem (bs : Bytes) : ∀ c ∈ toHex bs, c ∈ "0123456789abcdef".data := by
  induction bs with
  | nil => intro c hc; cases hc
  | cons b rest ih =>
    intro c hc
    simp only [toHex, List.mem_cons] at hc
    rcases hc with rfl | rfl | hc
    · exact hexDigit_mem _
    · exact hexDigit_mem _
    · exact ih c hc

theorem getOrderHash_eq (lib : Lib) (this : Exchange) (a1 a2 a3 a4 a5 a6 a7 : JsVal) :
    getOrderHash lib this a1 a2 a3 a4 a5 a6 a7 =
      Except.map (fun packed => "0x" ++ String.mk (toHex (lib.sha256 packed)))
        (getOrderHashPacked a1 a2 a3 a4 a5 a6 a7) := by
  unfold getOrderHash getOrderHashPacked soliditySHA256
  dsimp only
  cases solidityPack _ _ <;> rfl

theorem signOrder_logs_hash (lib : Lib) (this : Exchange) (order : Obj) (hash : String)
    (h : signOrderHash lib this order = Except.ok hash) :
    [JsVal.str "orderHas2:", JsVal.str hash] ∈ (signOrder lib this order).log := by
  have hg : getOrderHashHex lib order = Except.ok hash := by
    rw [getOrderHashHex_eq, ← signOrderHash_eq lib this order, h]
  unfold signOrderHash at h
  obtain ⟨u, hu, h⟩ := except_bind_ok_iff.mp h
  obtain ⟨sha, hsha, h⟩ := except_bind_ok_iff.mp h
  have hh : hash = "0x" ++ String.mk (toHex sha) := (Except.ok.inj h).symm
  unfold signOrder
  simp only [hg, hu, hsha, ← hh]
  repeat' split
  all_goals simp

/-! ## Order hashing: the packed twelve fields -/

/-- C1: the byte string that `signOrder` hashes is the packed encoding of exactly the
twelve order values exchangeContractAddress, maker, taker, makerTokenAddress,
takerTokenAddress, feeRecipient, makerTokenAmount, takerTokenAmount, makerFee, takerFee,
expirationUnixTimestampSec, salt, in this order, the first six read as `address` and the
last six as `uint256` (each tag with the value at the same position); the hash string is
`'0x'` followed by the hex form of one digest of the whole packed string, and it is the
hash `signOrder` logs. -/
theorem signOrder_hashes_packed_order (lib : Lib) (this : Exchange) (order : Obj) :
    signOrderTypes = List.replicate 6 SolType.address ++ List.replicate 6 SolType.uint256 ∧
    (∀ packed : Bytes, signOrderPacked order = Except.ok packed ↔
      ∃ b1 b2 b3 b4 b5 b6 b7 b8 b9 b10 b11 b12,
        encodeField SolType.address (order.get "exchangeContractAddress") = Except.ok b1 ∧
        encodeField SolType.address (order.get "maker") = Except.ok b2 ∧
        encodeField SolType.address (order.get "taker") = Except.ok b3 ∧
        encodeField SolType.address (order.get "makerTokenAddress") = Except.ok b4 ∧
        encodeField SolType.address (order.get "takerTokenAddress") = Except.ok b5 ∧
        encodeField SolType.address (order.get "feeRecipient") = Except.ok b6 ∧
        encodeField SolType.uint256 (order.get "makerTokenAmount") = Except.ok b7 ∧
        encodeField SolType.uint256 (order.get "takerTokenAmount") = Except.ok b8 ∧
        encodeField SolType.uint256 (order.get "makerFee") = Except.ok b9 ∧
        encodeField SolType.uint256 (order.get "takerFee") = Except.ok b10 ∧
        encodeField SolType.uint256 (order.get "expirationUnixTimestampSec") = Except.ok b11 ∧
        encodeField SolType.uint256 (order.get "salt") = Except.ok b12 ∧
        packed = b1 ++ (b2 ++ (b3 ++ (b4 ++ (b5 ++ (b6 ++ (b7 ++ (b8 ++ (b9 ++ (b10 ++
          (b11 ++ (b12 ++ [])))))))))))) ∧
    signOrderHash lib this order =
      Except.map (fun packed => "0x" ++ String.mk (toHex (lib.sha3 packed)))
        (signOrderPacked order) ∧
    (∀ hash : String, signOrderHash lib this order = Except.ok hash →
      [JsVal.str "orderHas2:", JsVal.str hash] ∈ (signOrder lib this order).log) :=
  ⟨rfl, signOrderPacked_ok_iff order, signOrderHash_eq lib this order,
    signOrder_logs_hash lib this order⟩

/-! ## createOrder: maker filling and the placement request -/

theorem createOrderFrom_log (lib : Lib) (this : Exchange) (reserveResponse : Obj) :
    (createOrderFrom lib this reserveResponse).log =
      [[JsVal.obj reserveResponse]] ++
        (signOrder lib this (marketOrder lib this reserveResponse)).log := by
  unfold createOrderFrom
  dsimp only
  split
  · rfl
  · rfl
  · rename_i v hv
    exact absurd hv (signOrder_never_returns lib this _ v)

theorem extendRef_read_old (store : Store) (a : Nat) (b : Obj) (ref : Nat)
    (href : ref < store.length) : (extendRef store a b).1.read ref = store.read ref := by
  simp only [extendRef, Store.read, List.getD_eq_getElem?_getD]
  rw [List.getElem?_append_left href]

theorem extendRef_read_new (store : Store) (a : Nat) (b : Obj) :
    (extendRef store a b).1.read (extendRef store a b).2 = extend (store.read a) b := by
  simp [extendRef, Store.read, List.getD_eq_getElem?_getD]

theorem extendRef_length (store : Store) (a : Nat) (b : Obj) :
    (extendRef store a b).1.length = store.length + 1 := by
  simp [extendRef]

/-- C2: the order that `createOrder` passes to `signOrder` has its maker equal to the
lower-cased caller address, and every other property (taker, makerTokenAddress,
takerTokenAddress, feeRecipient, makerTokenAmount, takerTokenAmount, makerFee, takerFee,
expirationUnixTimestampSec, salt, exchangeContractAddress among them) equal to that of the
relay's unsigned order; the run of `createOrder` logs the reservation response as
received and then is the run of `signOrder` on that order; and the relay's unsigned order
object is left unchanged: on a store of objects, the statement that builds the order
leaves every object already there as it was, the relay's unsigned order included, and
binds the order to a new object. -/
theorem createOrder_fills_maker_only (lib : Lib) (this : Exchange) (reserveResponse : Obj) :
    (marketOrder lib this reserveResponse).get "maker" = JsVal.str (lib.toLowerCase this.uid) ∧
    (∀ k : String, k ≠ "maker" →
      (marketOrder lib this reserveResponse).get k =
        (reserveResponse.get "unsignedMatchingOrder").get k) ∧
    (createOrderFrom lib this reserveResponse).log =
      [[JsVal.obj reserveResponse]] ++
        (signOrder lib this (marketOrder lib this reserveResponse)).log ∧
    (∀ (store : Store) (unsigned : Nat), unsigned < store.length →
      store.read unsigned = (reserveResponse.get "unsignedMatchingOrder").fields →
      (marketOrderRef lib this store unsigned).1.read unsigned =
        (reserveResponse.get "unsignedMatchingOrder").fields ∧
      (∀ ref : Nat, ref < store.length →
        (marketOrderRef lib this store unsigned).1.read ref = store.read ref) ∧
      (marketOrderRef lib this store unsigned).1.length = store.length + 1 ∧
      (marketOrderRef lib this store unsigned).2 = store.length ∧
      (marketOrderRef lib this store unsigned).1.read (marketOrderRef lib this store unsigned).2 =
        marketOrder lib this reserveResponse) := by
  refine ⟨marketOrder_get_maker lib this reserveResponse,
    marketOrder_get_other lib this reserveResponse, createOrderFrom_log lib this reserveResponse,
    ?_⟩
  intro store unsigned hlt hread
  refine ⟨?_, fun ref href => extendRef_read_old store unsigned _ ref href,
    extendRef_length store unsigned _, rfl, ?_⟩
  · rw [← hread]
    exact extendRef_read_old store unsigned _ unsigned hlt
  · rw [marketOrderRef, extendRef_read_new, hread]
    rfl

/-- C2 at the hard-coded reservation and a store that holds the relay's unsigned order at
reference 0: after the order is built, reference 0 still reads as the relay's order, whose
maker is empty, and the order sits at the new reference 1 with the maker filled in. -/
theorem createOrder_fills_maker_only_witness :
    (marketOrderRef sampleLib sampleExchange
        [(reserveResponse.get "unsignedMatchingOrder").fields] 0).1.read 0 =
      (reserveResponse.get "unsignedMatchingOrder").fields ∧
    (marketOrderRef sampleLib sampleExchange
        [(reserveResponse.get "unsignedMatchingOrder").fields] 0).2 = 1 ∧
    ((marketOrderRef sampleLib sampleExchange
        [(reserveResponse.get "unsignedMatchingOrder").fields] 0).1.read 1).get "maker" =
      JsVal.str "0x00ba938cc0df182c25108d7bf2ee3d37bce07513" ∧
    ((marketOrderRef sampleLib sampleExchange
        [(reserveResponse.get "unsignedMatchingOrder").fields] 0).1.read 0).get "maker" =
      JsVal.str "" :=
  ⟨((createOrder_fills_maker_only sampleLib sampleExchange reserveResponse).2.2.2
      [(reserveResponse.get "unsignedMatchingOrder").fields] 0 (by decide) rfl).1,
   ((createOrder_fills_maker_only sampleLib sampleExchange reserveResponse).2.2.2
      [(reserveResponse.get "unsignedMatchingOrder").fields] 0 (by decide) rfl).2.2.2.1,
   rfl, rfl⟩

/-- C3 (as the code behaves): the placement request reads the property `marketOrderID` of
the reservation response, which the market-order response used in the code does not
have, so the identifier field of the placement request is `undefined`, while the
identifier the response carries sits under `matchingOrderID`. -/
theorem placeRequest_identifier_undefined (serializedMarketOrder : JsVal) :
    (placeRequest reserveResponse serializedMarketOrder).get "marketOrderID" = JsVal.undefined ∧
    reserveResponse.get "matchingOrderID" =
      JsVal.str "MARKET_INTENT:8yjjtgkt6k8yjjtgkt6ljjtgkt6m" := by
  constructor
  · simp [placeRequest, reserveResponse, Obj.get]
  · simp [reserveResponse, Obj.get]

set_option maxRecDepth 4000 in
/-- C4 (as the code behaves): `signOrder` never returns a value to its caller, whatever
the order and the key; on the order built from the hard-coded reservation it ends in
`process.exit ()`. -/
theorem signOrder_exits_instead_of_returning :
    (∀ (lib : Lib) (this : Exchange) (order : Obj) (v : JsVal),
      (signOrder lib this order).outcome ≠ Outcome.returned v) ∧
    (signOrder sampleLib sampleExchange (marketOrder sampleLib sampleExchange reserveResponse)).outcome =
      Outcome.exited := by
  refine ⟨signOrder_never_returns, ?_⟩
  rfl

/-! ## Encoding failures -/

/-- C5: when the unsigned order of a reservation response lacks one of the required
address or integer fields (the maker apart, which `createOrder` fills in), the hash
computed by `signOrder` is an `EncodingError`, `signOrder` throws it before logging or
hashing anything, and `createOrder` ends with the same error; no default stands in for
the missing field. -/
theorem createOrder_missing_field_fails (lib : Lib) (this : Exchange) (reserveResponse : Obj)
    (k : String) (hk : k ∈ addressFields ++ integerFields) (hmaker : k ≠ "maker")
    (hmissing : (reserveResponse.get "unsignedMatchingOrder").get k = JsVal.undefined) :
    signOrderPacked (marketOrder lib this reserveResponse) = Except.error Err.EncodingError ∧
    signOrderHash lib this (marketOrder lib this reserveResponse) =
      Except.error Err.EncodingError ∧
    signOrder lib this (marketOrder lib this reserveResponse) =
      Run.mk [] (Outcome.threw Err.EncodingError) ∧
    (createOrderFrom lib this reserveResponse).outcome = Outcome.threw Err.EncodingError := by
  have hget : (marketOrder lib this reserveResponse).get k = JsVal.undefined := by
    rw [marketOrder_get_other lib this reserveResponse k hmaker, hmissing]
  have hp := signOrderPacked_missing_field _ k hk hget
  exact ⟨hp, signOrderHash_of_packed_error lib this _ _ hp,
    signOrder_of_packed_error lib this _ _ hp,
    createOrderFrom_outcome_of_packed_error lib this _ _ hp⟩

/-- C5 at a reservation response without `makerFee`. -/
theorem createOrder_missing_field_fails_witness :
    signOrderPacked (marketOrder sampleLib sampleExchange reserveResponseNoMakerFee) =
      Except.error Err.EncodingError ∧
    signOrderHash sampleLib sampleExchange (marketOrder sampleLib sampleExchange reserveResponseNoMakerFee) =
      Except.error Err.EncodingError ∧
    signOrder sampleLib sampleExchange (marketOrder sampleLib sampleExchange reserveResponseNoMakerFee) =
      Run.mk [] (Outcome.threw Err.EncodingError) ∧
    (createOrderFrom sampleLib sampleExchange reserveResponseNoMakerFee).outcome =
      Outcome.threw Err.EncodingError :=
  createOrder_missing_field_fails sampleLib sampleExchange reserveResponseNoMakerFee "makerFee"
    (by decide) (by decide) rfl

/-- C6: when an integer field of the order (makerTokenAmount, takerTokenAmount, makerFee,
takerFee, expirationUnixTimestampSec or salt) is negative or exceeds `2^256 - 1`, the
hash computed in `signOrder` is an `EncodingError` and `signOrder` throws it; no hash of a
truncated or sign-stripped value is produced or logged. -/
theorem signOrder_rejects_out_of_range (lib : Lib) (this : Exchange) (order : Obj)
    (k : String) (n : Int) (hk : k ∈ integerFields)
    (hn : parseNumber (order.get k) = Except.ok n) (hrange : n < 0 ∨ 2 ^ 256 - 1 < n) :
    signOrderPacked order = Except.error Err.EncodingError ∧
    signOrderHash lib this order = Except.error Err.EncodingError ∧
    signOrder lib this order = Run.mk [] (Outcome.threw Err.EncodingError) := by
  have hp := signOrderPacked_out_of_range order k n hk hn hrange
  exact ⟨hp, signOrderHash_of_packed_error lib this _ _ hp,
    signOrder_of_packed_error lib this _ _ hp⟩

set_option maxRecDepth 4000 in
/-- C6 at the salt `2^256`: rejected. -/
theorem signOrder_rejects_out_of_range_witness :
    signOrderPacked overflowOrder = Except.error Err.EncodingError ∧
    signOrderHash sampleLib sampleExchange overflowOrder = Except.error Err.EncodingError ∧
    signOrder sampleLib sampleExchange overflowOrder =
      Run.mk [] (Outcome.threw Err.EncodingError) :=
  signOrder_rejects_out_of_range sampleLib sampleExchange overflowOrder "salt"
    115792089237316195423570985008687907853269984665640564039457584007913129639936
    (by decide) rfl (Or.inr (by norm_num))


/-! ## Widths, injectivity, determinism and hash length -/

/-- C7: in the packed encoding every `address` field is exactly 20 bytes and every
`uint256` field exactly 32 bytes, each byte below 256, big-endian and left-padded with
zeros whatever the magnitude of the value; 0 encodes to 32 zero bytes and `2^256 - 1` to
32 bytes `0xFF`; the packed order of `signOrder` is exactly 312 bytes and that of
`getOrderHash` exactly 188 bytes, the plain concatenation of the field encodings. -/
theorem packed_field_widths :
    (∀ (v : JsVal) (b : Bytes), encodeField SolType.address v = Except.ok b → b.length = 20) ∧
    (∀ (v : JsVal) (b : Bytes), encodeField SolType.uint256 v = Except.ok b → b.length = 32) ∧
    (∀ (t : SolType) (v : JsVal) (b : Bytes), encodeField t v = Except.ok b →
      ∀ x ∈ b, x < 256) ∧
    (∀ (v : JsVal) (n : Nat), parseAddress v = Except.ok n →
      encodeField SolType.address v = Except.ok (toBytesBE 20 n) ∧
      fromBytesBE (toBytesBE 20 n) = n) ∧
    (∀ (v : JsVal) (n : Nat), parseNumber v = Except.ok (n : Int) → n < 2 ^ 256 →
      encodeField SolType.uint256 v = Except.ok (toBytesBE 32 n) ∧
      fromBytesBE (toBytesBE 32 n) = n) ∧
    (∀ (v : JsVal) (k j n : Nat), parseAddress v = Except.ok n → j + k = 20 → n < 256 ^ k →
      encodeField SolType.address v = Except.ok (List.replicate j 0 ++ toBytesBE k n)) ∧
    (∀ (v : JsVal) (k j n : Nat), parseNumber v = Except.ok (n : Int) → j + k = 32 →
      n < 256 ^ k →
      encodeField SolType.uint256 v = Except.ok (List.replicate j 0 ++ toBytesBE k n)) ∧
    encodeField SolType.uint256 (JsVal.bn 0) = Except.ok (List.replicate 32 0) ∧
    encodeField SolType.uint256 (JsVal.str "0") = Except.ok (List.replicate 32 0) ∧
    encodeField SolType.uint256 (JsVal.bn (2 ^ 256 - 1)) = Except.ok (List.replicate 32 255) ∧
    (∀ (order : Obj) (p : Bytes), signOrderPacked order = Except.ok p →
      p.length = 6 * 20 + 6 * 32 ∧ p.length = 312) ∧
    (∀ (a1 a2 a3 a4 a5 a6 a7 : JsVal) (p : Bytes),
      getOrderHashPacked a1 a2 a3 a4 a5 a6 a7 = Except.ok p →
      p.length = 3 * 20 + 4 * 32 ∧ p.length = 188) := by
  have haddr : ∀ (v : JsVal) (n : Nat), parseAddress v = Except.ok n →
      encodeField SolType.address v = Except.ok (toBytesBE 20 n) := by
    intro v n hv
    exact (@encodeAddress_ok_iff v (toBytesBE 20 n)).mpr ⟨n, hv, rfl⟩
  have henc : ∀ (v : JsVal) (n : Nat), parseNumber v = Except.ok (n : Int) → n < 2 ^ 256 →
      encodeField SolType.uint256 v = Except.ok (toBytesBE 32 n) := by
    intro v n hv hn
    have hlt : (n : Int) < 2 ^ 256 := by exact_mod_cast hn
    have hb : toBytesBE 32 n = toBytesBE 32 (n : Int).toNat := by rw [Int.toNat_natCast]
    exact (@encodeUint256_ok_iff v (toBytesBE 32 n)).mpr
      ⟨(n : Int), hv, Int.natCast_nonneg n, hlt, hb⟩
  have hbn : ∀ n : Nat, parseNumber (JsVal.bn (n : Int)) = Except.ok (n : Int) :=
    fun n => rfl
  refine ⟨fun v b h => encodeField_length h, fun v b h => encodeField_length h,
    fun t v b h => encodeField_lt h, ?_, ?_, ?_, ?_, ?_, ?_, ?_, ?_, ?_⟩
  · intro v n hv
    refine ⟨haddr v n hv, ?_⟩
    rw [fromBytesBE_toBytesBE]
    exact Nat.mod_eq_of_lt (parseAddress_lt hv)
  · intro v n hv hn
    refine ⟨henc v n hv hn, ?_⟩
    rw [fromBytesBE_toBytesBE]
    exact Nat.mod_eq_of_lt (by norm_num; exact hn)
  · intro v k j n hv hjk hn
    rw [haddr v n hv, ← hjk, toBytesBE_pad k j n hn]
  · intro v k j n hv hjk hn
    have hk : k ≤ 32 := by omega
    have hlt : n < 2 ^ 256 := by
      calc n < 256 ^ k := hn
        _ ≤ 256 ^ 32 := Nat.pow_le_pow_right (by decide) hk
        _ = 2 ^ 256 := by norm_num
    rw [henc v n hv hlt, ← hjk, toBytesBE_pad k j n hn]
  · have h0 := henc (JsVal.bn 0) 0 (hbn 0) (by norm_num)
    rw [toBytesBE_zero] at h0
    exact h0
  · have hparse : parseNumber (JsVal.str "0") = Except.ok ((0 : Nat) : Int) := rfl
    have h0 := henc (JsVal.str "0") 0 hparse (by norm_num)
    rw [toBytesBE_zero] at h0
    exact h0
  · have hcast : ((2 : Int) ^ 256 - 1) = ((2 ^ 256 - 1 : Nat) : Int) := by norm_num
    have hmax := henc (JsVal.bn ((2 ^ 256 - 1 : Nat) : Int)) (2 ^ 256 - 1) (hbn _) (by norm_num)
    have hbytes : toBytesBE 32 (2 ^ 256 - 1) = List.replicate 32 255 := by decide
    rw [hcast, hmax, hbytes]
  · intro order p h
    exact ⟨signOrderPacked_length h, signOrderPacked_length h⟩
  · intro a1 a2 a3 a4 a5 a6 a7 p h
    unfold getOrderHashPacked at h
    have := solidityPack_length h
    exact ⟨this, this⟩

set_option maxRecDepth 4000 in
/-- C7 at the taker address and the salt of the hard-coded reservation. -/
theorem packed_field_widths_witness :
    (toBytesBE 20 0x00ba938cc0df182c25108d7bf2ee3d37bce07513).length = 20 ∧
    (toBytesBE 32
      73665372381710778176321403164539964478925879098761330710742710411655889865098).length
        = 32 :=
  ⟨packed_field_widths.1 (JsVal.str "0x00ba938cc0df182c25108d7bf2ee3d37bce07513") _ rfl,
   packed_field_widths.2.1
    (JsVal.str "73665372381710778176321403164539964478925879098761330710742710411655889865098")
    _ rfl⟩

/-- C8: the packed encoding is injective on valid orders: two orders whose twelve fields
are valid (addresses of at most 20 bytes, integers in `[0, 2^256 - 1]`) and that differ
in the value of at least one field are packed by `signOrder` to different byte strings. -/
theorem signOrderPacked_injective (o1 o2 : Obj)
    (h1 : validOrder o1 = true) (h2 : validOrder o2 = true)
    (hdiff : (∃ k ∈ addressFields, parseAddress (o1.get k) ≠ parseAddress (o2.get k)) ∨
      (∃ k ∈ integerFields, parseNumber (o1.get k) ≠ parseNumber (o2.get k))) :
    ∃ p1 p2, signOrderPacked o1 = Except.ok p1 ∧ signOrderPacked o2 = Except.ok p2 ∧
      p1 ≠ p2 := by
  obtain ⟨p1, hp1⟩ := validOrder_packs h1
  obtain ⟨p2, hp2⟩ := validOrder_packs h2
  refine ⟨p1, p2, hp1, hp2, ?_⟩
  intro heq
  rw [← heq] at hp2
  obtain ⟨ha, hi⟩ := signOrderPacked_inj hp1 hp2
  rcases hdiff with ⟨k, hk, hne⟩ | ⟨k, hk, hne⟩
  · exact hne (ha k hk)
  · exact hne (hi k hk)

set_option maxRecDepth 4000 in
/-- C8 at the sample order and the same order with another salt. -/
theorem signOrderPacked_injective_witness :
    ∃ p1 p2, signOrderPacked sampleOrder = Except.ok p1 ∧
      signOrderPacked sampleOrderOtherSalt = Except.ok p2 ∧ p1 ≠ p2 :=
  signOrderPacked_injective sampleOrder sampleOrderOtherSalt (by decide) (by decide)
    (Or.inr ⟨"salt", by decide, fun h => by
      have h' : (73665372381710778176321403164539964478925879098761330710742710411655889865098 : Int)
          = 1 := Except.ok.inj h
      omega⟩)

/-- C9: order hashing is deterministic and reads nothing but its arguments:
`getOrderHash` returns the same result for the same seven arguments whatever the exchange
object, and the hash computed in `signOrder` is the same for any two orders that agree
on the twelve hashed fields, whatever the exchange object (private key included) and
whatever other properties the order objects carry. -/
theorem order_hash_deterministic (lib : Lib) (this1 this2 : Exchange) :
    (∀ a1 a2 a3 a4 a5 a6 a7 : JsVal,
      getOrderHash lib this1 a1 a2 a3 a4 a5 a6 a7 =
        getOrderHash lib this2 a1 a2 a3 a4 a5 a6 a7) ∧
    (∀ o1 o2 : Obj, (∀ k ∈ addressFields ++ integerFields, o1.get k = o2.get k) →
      signOrderHash lib this1 o1 = signOrderHash lib this2 o2) := by
  refine ⟨fun a1 a2 a3 a4 a5 a6 a7 => rfl, ?_⟩
  intro o1 o2 h
  unfold signOrderHash
  rw [signOrderUnpacked_congr h]

/-- C9 at two order objects that agree on the twelve fields, under two exchange objects
with different keys. -/
theorem order_hash_deterministic_witness :
    signOrderHash sampleLib sampleExchange sampleOrder =
      signOrderHash sampleLib otherExchange sampleOrderExtraField :=
  (order_hash_deterministic sampleLib sampleExchange otherExchange).2 sampleOrder
    sampleOrderExtraField (fun k hk => by
      simp only [addressFields, integerFields, List.cons_append, List.nil_append, List.mem_cons,
        List.mem_singleton, List.not_mem_nil, or_false] at hk
      rcases hk with rfl | rfl | rfl | rfl | rfl | rfl | rfl | rfl | rfl | rfl | rfl | rfl <;> rfl)

/-- C10: with 32-byte digests, for every valid input `getOrderHash` returns `'0x'`
followed by exactly 64 hexadecimal characters, and so does the hash string built in
`signOrder`. -/
theorem order_hash_fixed_length (lib : Lib) (this : Exchange)
    (hsha3 : ∀ b, (lib.sha3 b).length = 32) (hsha256 : ∀ b, (lib.sha256 b).length = 32) :
    (∀ a1 a2 a3 a4 a5 a6 a7 : JsVal,
      validAddress a1 = true → validAddress a2 = true → validUint256 a3 = true →
      validAddress a4 = true → validUint256 a5 = true → validUint256 a6 = true →
      validUint256 a7 = true →
      ∃ hex : List Char, getOrderHash lib this a1 a2 a3 a4 a5 a6 a7 =
          Except.ok ("0x" ++ String.mk hex) ∧
        hex.length = 64 ∧ ∀ c ∈ hex, c ∈ "0123456789abcdef".data) ∧
    (∀ order : Obj, validOrder order = true →
      ∃ hex : List Char, signOrderHash lib this order = Except.ok ("0x" ++ String.mk hex) ∧
        hex.length = 64 ∧ ∀ c ∈ hex, c ∈ "0123456789abcdef".data) := by
  constructor
  · intro a1 a2 a3 a4 a5 a6 a7 v1 v2 v3 v4 v5 v6 v7
    obtain ⟨b1, e1⟩ := validAddress_encodes v1
    obtain ⟨b2, e2⟩ := validAddress_encodes v2
    obtain ⟨b3, e3⟩ := validUint256_encodes v3
    obtain ⟨b4, e4⟩ := validAddress_encodes v4
    obtain ⟨b5, e5⟩ := validUint256_encodes v5
    obtain ⟨b6, e6⟩ := validUint256_encodes v6
    obtain ⟨b7, e7⟩ := validUint256_encodes v7
    have hp : getOrderHashPacked a1 a2 a3 a4 a5 a6 a7 =
        Except.ok (b1 ++ (b2 ++ (b3 ++ (b4 ++ (b5 ++ (b6 ++ (b7 ++ []))))))) := by
      unfold getOrderHashPacked
      simp only [solidityPack_cons_ok_iff, solidityPack_nil_ok_iff]
      exact ⟨b1, _, e1, ⟨b2, _, e2, ⟨b3, _, e3, ⟨b4, _, e4, ⟨b5, _, e5, ⟨b6, _, e6,
        ⟨b7, _, e7, rfl, rfl⟩, rfl⟩, rfl⟩, rfl⟩, rfl⟩, rfl⟩, rfl⟩
    refine ⟨toHex (lib.sha256 (b1 ++ (b2 ++ (b3 ++ (b4 ++ (b5 ++ (b6 ++ (b7 ++ [])))))))),
      ?_, ?_, toHex_mem _⟩
    · rw [getOrderHash_eq, hp]; rfl
    · rw [toHex_length, hsha256]
  · intro order hv
    obtain ⟨p, hp⟩ := validOrder_packs hv
    refine ⟨toHex (lib.sha3 p), ?_, ?_, toHex_mem _⟩
    · rw [signOrderHash_eq, hp]; rfl
    · rw [toHex_length, hsha3]

set_option maxRecDepth 4000 in
/-- C10 at the sample order, with the sample digests. -/
theorem order_hash_fixed_length_witness :
    ∃ hex : List Char, signOrderHash sampleLib sampleExchange sampleOrder =
        Except.ok ("0x" ++ String.mk hex) ∧
      hex.length = 64 ∧ ∀ c ∈ hex, c ∈ "0123456789abcdef".data :=
  (order_hash_fixed_length sampleLib sampleExchange
    (fun b => toBytesBE_length 32 _) (fun b => toBytesBE_length 32 _)).2 sampleOrder
    (by decide)


/-! ## sign: the authenticated request -/

theorem signPrehash_timestamp (env : Env) (this : Exchange) (seconds : Nat)
    (url method : String) (query : Obj) (body : JsVal) :
    (signPrehash env this seconds url method query body).timestamp = toString seconds := by
  unfold signPrehash
  dsimp only
  split <;> rfl

theorem sign_private_eq (env : Env) (this : Exchange) (seconds : Nat) (path method : String)
    (params : Obj) (headers body : JsVal) (req : Request)
    (h : sign env this seconds path "private" method params headers body = Except.ok req) :
    req = Request.mk
      (signPrehash env this seconds
        (apiUrl ++ "/" ++ version ++ "/" ++ env.implodeParams path params) method
        (omitKeys params (env.extractParams path)) body).url
      method
      (signPrehash env this seconds
        (apiUrl ++ "/" ++ version ++ "/" ++ env.implodeParams path params) method
        (omitKeys params (env.extractParams path)) body).body
      (JsVal.obj
        [("TOX-ACCESS-KEY", JsVal.str this.apiKey),
         ("TOX-ACCESS-SIGN", JsVal.str (env.hmac
            (signPrehash env this seconds
              (apiUrl ++ "/" ++ version ++ "/" ++ env.implodeParams path params) method
              (omitKeys params (env.extractParams path)) body).prehash
            this.secret "sha256" "base64")),
         ("TOX-ACCESS-TIMESTAMP", JsVal.str (toString seconds)),
         ("Content-Type", JsVal.str "application/json")]) := by
  unfold sign at h
  simp only [if_true] at h
  split at h
  · exact Except.noConfusion h
  · have h' := Except.ok.inj h
    rw [← h', signPrehash_timestamp]

theorem signPrehash_post (env : Env) (this : Exchange) (seconds : Nat) (url : String)
    (query : Obj) (body : JsVal) :
    signPrehash env this seconds url "POST" query body =
      Prehash.mk url (JsVal.str (json query)) (toString seconds)
        (this.apiKey ++ toString seconds ++ "POST" ++ json query) := by
  simp [signPrehash]

theorem signPrehash_other (env : Env) (this : Exchange) (seconds : Nat) (url method : String)
    (query : Obj) (body : JsVal) (hm : method ≠ "POST") :
    signPrehash env this seconds url method query body =
      Prehash.mk (if query.length ≠ 0 then url ++ "?" ++ env.urlencode query else url) body
        (toString seconds) (this.apiKey ++ toString seconds ++ method ++ "\x7b\x7d") := by
  have hj : json [] = "\x7b\x7d" := by decide
  simp [signPrehash, hm, hj]

/-- C11 (as stated, refuted): for the private `GET` request of the sample exchange at
clock reading 1534651346, the message that `sign` passes to the HMAC is not
`apiKey + timestamp + method`: the text of the empty JSON object follows the method. -/
theorem sign_get_prehash_not_bare :
    (signPrehash sampleEnv sampleExchange 1534651346
        (apiUrl ++ "/" ++ version ++ "/" ++ "available_balance") "GET" [] JsVal.undefined).prehash
      ≠ sampleExchange.apiKey ++ toString 1534651346 ++ "GET" := by
  decide

/-- C11 (amended): for every private request that `sign` returns, the signature header
is the HMAC of `apiKey + timestamp + method + JSON (query)` when the method is `POST`,
with that same JSON as the body, and of `apiKey + timestamp + method + '{}'` (the JSON
of the empty object) for every other method, whose body is the one the caller passed. -/
theorem sign_private_prehash (env : Env) (this : Exchange) (seconds : Nat)
    (path method : String) (params : Obj) (headers body : JsVal) (req : Request)
    (h : sign env this seconds path "private" method params headers body = Except.ok req) :
    (method = "POST" →
      req.headers.get "TOX-ACCESS-SIGN" = JsVal.str (env.hmac
        (this.apiKey ++ toString seconds ++ method ++
          json (omitKeys params (env.extractParams path)))
        this.secret "sha256" "base64") ∧
      req.body = JsVal.str (json (omitKeys params (env.extractParams path)))) ∧
    (method ≠ "POST" →
      req.headers.get "TOX-ACCESS-SIGN" = JsVal.str (env.hmac
        (this.apiKey ++ toString seconds ++ method ++ "\x7b\x7d")
        this.secret "sha256" "base64") ∧
      req.body = body) := by
  have hreq := sign_private_eq env this seconds path method params headers body req h
  constructor
  · intro hm
    subst hm
    rw [hreq, signPrehash_post]
    exact ⟨by simp [JsVal.get, Obj.get], rfl⟩
  · intro hm
    rw [hreq, signPrehash_other _ _ _ _ _ _ _ hm]
    exact ⟨by simp [JsVal.get, Obj.get], rfl⟩

/-- C11 (amended) at a private `DELETE` request of the sample exchange. -/
theorem sign_private_prehash_witness :
    sign sampleEnv sampleExchange 1534651346 "order/0x00" "private" "DELETE" []
      JsVal.undefined JsVal.undefined = Except.ok sampleDeleteRequest ∧
    sampleDeleteRequest.headers.get "TOX-ACCESS-SIGN" =
      JsVal.str (sampleEnv.hmac
        (sampleExchange.apiKey ++ toString 1534651346 ++ "DELETE" ++ "\x7b\x7d")
        sampleExchange.secret "sha256" "base64") ∧
    sampleDeleteRequest.body = JsVal.undefined :=
  ⟨rfl, (sign_private_prehash sampleEnv sampleExchange 1534651346 "order/0x00" "DELETE" []
    JsVal.undefined JsVal.undefined sampleDeleteRequest rfl).2 (by decide)⟩

theorem signPrehash_prehash (env : Env) (this : Exchange) (seconds : Nat) (url method : String)
    (query : Obj) (body : JsVal) :
    (signPrehash env this seconds url method query body).prehash =
      this.apiKey ++ toString seconds ++ method ++
        (if method = "POST" then json query else "\x7b\x7d") := by
  by_cases hm : method = "POST"
  · subst hm
    rw [signPrehash_post]
    simp
  · rw [signPrehash_other _ _ _ _ _ _ _ hm]
    simp [hm]

/-- C12: for every private request, `sign` returns the headers `TOX-ACCESS-KEY` = the API
key, `TOX-ACCESS-SIGN` = the base64 HMAC-SHA256, keyed by the secret, of the prehash
`apiKey + timestamp + method + payload`, and `TOX-ACCESS-TIMESTAMP` = the very timestamp
string of the prehash (next to `Content-Type`); the headers passed by the caller play
no part in the result. -/
theorem sign_private_headers (env : Env) (this : Exchange) (seconds : Nat)
    (path method : String) (params : Obj) (headers body : JsVal) (req : Request)
    (h : sign env this seconds path "private" method params headers body = Except.ok req) :
    req.headers = JsVal.obj
      [("TOX-ACCESS-KEY", JsVal.str this.apiKey),
       ("TOX-ACCESS-SIGN", JsVal.str (env.hmac
          (this.apiKey ++ toString seconds ++ method ++
            (if method = "POST" then json (omitKeys params (env.extractParams path))
             else "\x7b\x7d"))
          this.secret "sha256" "base64")),
       ("TOX-ACCESS-TIMESTAMP", JsVal.str (toString seconds)),
       ("Content-Type", JsVal.str "application/json")] ∧
    (∀ callerHeaders : JsVal,
      sign env this seconds path "private" method params callerHeaders body =
        Except.ok req) := by
  have hreq := sign_private_eq env this seconds path method params headers body req h
  constructor
  · rw [hreq, signPrehash_prehash]
  · intro callerHeaders
    unfold sign at h ⊢
    exact h

/-- C12 at a private `DELETE` request of the sample exchange, for a caller that passes
headers of its own. -/
theorem sign_private_headers_witness :
    sampleDeleteRequest.headers = JsVal.obj
      [("TOX-ACCESS-KEY", JsVal.str sampleExchange.apiKey),
       ("TOX-ACCESS-SIGN", JsVal.str (sampleEnv.hmac
          (sampleExchange.apiKey ++ toString 1534651346 ++ "DELETE" ++
            (if "DELETE" = "POST" then json (omitKeys [] (sampleEnv.extractParams "order/0x00"))
             else "\x7b\x7d"))
          sampleExchange.secret "sha256" "base64")),
       ("TOX-ACCESS-TIMESTAMP", JsVal.str (toString 1534651346)),
       ("Content-Type", JsVal.str "application/json")] ∧
    (∀ callerHeaders : JsVal,
      sign sampleEnv sampleExchange 1534651346 "order/0x00" "private" "DELETE" []
        callerHeaders JsVal.undefined = Except.ok sampleDeleteRequest) :=
  sign_private_headers sampleEnv sampleExchange 1534651346 "order/0x00" "DELETE" []
    (JsVal.obj [("X-Caller", JsVal.str "1")]) JsVal.undefined sampleDeleteRequest rfl

/-! ## createOrder: the run -/

theorem createOrderFrom_never_returns (lib : Lib) (this : Exchange) (reserveResponse : Obj)
    (v : JsVal) : (createOrderFrom lib this reserveResponse).outcome ≠ Outcome.returned v := by
  unfold createOrderFrom
  dsimp only
  split
  · exact fun h => Outcome.noConfusion h
  · exact fun h => Outcome.noConfusion h
  · rename_i w hw
    exact absurd hw (signOrder_never_returns lib this _ w)

theorem createOrder_of_market_error (env : Env) (lib : Lib) (this : Exchange)
    (symbol type side : String) (amount price : JsVal) (params : Obj) (e : Err)
    (hm : env.market symbol = Except.error e) :
    createOrder env lib this symbol type side amount price params =
      Trace.mk [] (Outcome.threw e) := by
  unfold createOrder
  rw [hm]

theorem createOrder_of_request_error (env : Env) (lib : Lib) (this : Exchange)
    (symbol type side : String) (amount price : JsVal) (params : Obj) (market : JsVal) (e : Err)
    (hm : env.market symbol = Except.ok market)
    (hr : reserveRequest env lib this market symbol type side amount price = Except.error e) :
    createOrder env lib this symbol type side amount price params =
      Trace.mk [] (Outcome.threw e) := by
  unfold createOrder
  rw [hm]
  dsimp only
  rw [hr]

theorem createOrder_of_request (env : Env) (lib : Lib) (this : Exchange)
    (symbol type side : String) (amount price : JsVal) (params : Obj) (market : JsVal)
    (request : Obj) (hm : env.market symbol = Except.ok market)
    (hr : reserveRequest env lib this market symbol type side amount price = Except.ok request) :
    createOrder env lib this symbol type side amount price params =
      Trace.mk (Event.log [JsVal.obj request] ::
          (createOrderFrom lib this reserveResponse).log.map Event.log)
        (createOrderFrom lib this reserveResponse).outcome := by
  unfold createOrder
  rw [hm]
  dsimp only
  rw [hr]

theorem createOrderFrom_outcome (lib : Lib) (this : Exchange) (reserveResponse : Obj) :
    (createOrderFrom lib this reserveResponse).outcome =
      (signOrder lib this (marketOrder lib this reserveResponse)).outcome := by
  unfold createOrderFrom
  dsimp only
  split
  · rename_i e he; rw [he]
  · rename_i he; rw [he]
  · rename_i v hv
    exact absurd hv (signOrder_never_returns lib this _ v)

theorem reserveRequest_ok_iff (env : Env) (lib : Lib) (this : Exchange) (market : JsVal)
    (symbol type side : String) (amount price : JsVal) (request : Obj) :
    reserveRequest env lib this market symbol type side amount price = Except.ok request ↔
      ∃ baseId quoteId precise orderAmount,
        readNamed market "baseId" = Except.ok baseId ∧
        readNamed market "quoteId" = Except.ok quoteId ∧
        env.amountToPrecision symbol amount = Except.ok precise ∧
        env.toWei precise = Except.ok orderAmount ∧
        ((type = "limit" ∧ ∃ p, priceToPrecision env symbol price = Except.ok p ∧
            request =
              [("walletAddress", JsVal.str (lib.toLowerCase this.uid)),
               ("baseTokenAddress", baseId),
               ("quoteTokenAddress", quoteId),
               ("side", JsVal.str side),
               ("orderAmount", orderAmount),
               ("feeOption", JsVal.str "feeInNative"),
               ("price", p)]) ∨
         (type ≠ "limit" ∧
            request =
              [("walletAddress", JsVal.str (lib.toLowerCase this.uid)),
               ("baseTokenAddress", baseId),
               ("quoteTokenAddress", quoteId),
               ("side", JsVal.str side),
               ("orderAmount", orderAmount),
               ("feeOption", JsVal.str "feeInNative")])) := by
  unfold reserveRequest
  cases hb : readNamed market "baseId" with
  | error e => simp
  | ok baseId =>
    cases hq : readNamed market "quoteId" with
    | error e => simp
    | ok quoteId =>
      cases ha : env.amountToPrecision symbol amount with
      | error e => simp
      | ok precise =>
        cases hw : env.toWei precise with
        | error e => simp [hw]
        | ok orderAmount =>
          by_cases ht : type = "limit"
          · cases hp : priceToPrecision env symbol price with
            | error e => simp [hw, ht]
            | ok p =>
              simp [hw, ht, Obj.set, eq_comm]
          · simp [hw, ht, eq_comm]

/-- C13: in every execution of `createOrder` no relay endpoint is called at all, the
placement endpoint included, so none is called before the order is signed: once the
reserve request is built, the run consists of the log of the reserve request, the log of
the reservation response and the log entries written inside `signOrder`, and it ends
inside `signOrder` (by a throw or by the exit of the process); when the market lookup or
the construction of the reserve request throws, the run is that throw and nothing else;
it never ends by a return. -/
theorem createOrder_calls_no_endpoint (env : Env) (lib : Lib) (this : Exchange)
    (symbol type side : String) (amount price : JsVal) (params : Obj) :
    (∀ ev ∈ (createOrder env lib this symbol type side amount price params).events,
      ∀ (method : String) (request : JsVal), ev ≠ Event.call method request) ∧
    (∀ v : JsVal,
      (createOrder env lib this symbol type side amount price params).outcome ≠
        Outcome.returned v) ∧
    (∀ (market : JsVal) (request : Obj), env.market symbol = Except.ok market →
      reserveRequest env lib this market symbol type side amount price = Except.ok request →
      (createOrder env lib this symbol type side amount price params).events =
        Event.log [JsVal.obj request] ::
        Event.log [JsVal.obj reserveResponse] ::
        (signOrder lib this (marketOrder lib this reserveResponse)).log.map Event.log ∧
      (createOrder env lib this symbol type side amount price params).outcome =
        (signOrder lib this (marketOrder lib this reserveResponse)).outcome) ∧
    (∀ (market : JsVal) (e : Err), env.market symbol = Except.ok market →
      reserveRequest env lib this market symbol type side amount price = Except.error e →
      (createOrder env lib this symbol type side amount price params).events = [] ∧
      (createOrder env lib this symbol type side amount price params).outcome =
        Outcome.threw e) ∧
    (∀ e : Err, env.market symbol = Except.error e →
      (createOrder env lib this symbol type side amount price params).events = [] ∧
      (createOrder env lib this symbol type side amount price params).outcome =
        Outcome.threw e) := by
  refine ⟨?_, ?_, ?_, ?_, ?_⟩
  · intro ev hev method request heq
    cases hm : env.market symbol with
    | error e =>
      rw [createOrder_of_market_error env lib this symbol type side amount price params e hm]
        at hev
      simp at hev
    | ok market =>
      cases hr : reserveRequest env lib this market symbol type side amount price with
      | error e =>
        rw [createOrder_of_request_error env lib this symbol type side amount price params
          market e hm hr] at hev
        simp at hev
      | ok built =>
        rw [createOrder_of_request env lib this symbol type side amount price params
          market built hm hr] at hev
        subst heq
        simp at hev
  · intro v
    cases hm : env.market symbol with
    | error e =>
      rw [createOrder_of_market_error env lib this symbol type side amount price params e hm]
      exact fun h => Outcome.noConfusion h
    | ok market =>
      cases hr : reserveRequest env lib this market symbol type side amount price with
      | error e =>
        rw [createOrder_of_request_error env lib this symbol type side amount price params
          market e hm hr]
        exact fun h => Outcome.noConfusion h
      | ok built =>
        rw [createOrder_of_request env lib this symbol type side amount price params
          market built hm hr]
        exact createOrderFrom_never_returns lib this reserveResponse v
  · intro market request hm hr
    rw [createOrder_of_request env lib this symbol type side amount price params
      market request hm hr]
    dsimp only
    rw [createOrderFrom_log, createOrderFrom_outcome]
    exact ⟨by simp, rfl⟩
  · intro market e hm hr
    rw [createOrder_of_request_error env lib this symbol type side amount price params
      market e hm hr]
    exact ⟨rfl, rfl⟩
  · intro e hm
    rw [createOrder_of_market_error env lib this symbol type side amount price params e hm]
    exact ⟨rfl, rfl⟩

/-- C15: whenever `createOrder` builds its reservation request (the market is found and
no property of the object literal throws), the request holds `walletAddress` (the
lower-cased uid), `baseTokenAddress`, `quoteTokenAddress`, `side` and `orderAmount` (the
amount taken to precision and converted to minor units); it has a `price` property if and
only if the type is `limit`, and that property is the result of `priceToPrecision`; this
request is the first thing the run logs; and the reserve method name is
`'privatePost' + capitalize (type) + 'OrderReserve'`.  The request is built exactly when
the market is not `undefined`, the amount helpers return and, for a limit order,
`priceToPrecision` returns. -/
theorem createOrder_reserve_request (env : Env) (lib : Lib) (this : Exchange)
    (symbol type side : String) (amount price : JsVal) (params : Obj) (market : JsVal)
    (hm : env.market symbol = Except.ok market) :
    (∀ request : Obj,
      reserveRequest env lib this market symbol type side amount price = Except.ok request →
      (∀ k ∈ ["walletAddress", "baseTokenAddress", "quoteTokenAddress", "side", "orderAmount"],
        Obj.hasKey request k = true) ∧
      request.get "walletAddress" = JsVal.str (lib.toLowerCase this.uid) ∧
      readNamed market "baseId" = Except.ok (request.get "baseTokenAddress") ∧
      readNamed market "quoteId" = Except.ok (request.get "quoteTokenAddress") ∧
      request.get "side" = JsVal.str side ∧
      (∃ precise : JsVal, env.amountToPrecision symbol amount = Except.ok precise ∧
        env.toWei precise = Except.ok (request.get "orderAmount")) ∧
      (Obj.hasKey request "price" = true ↔ type = "limit") ∧
      (type = "limit" →
        priceToPrecision env symbol price = Except.ok (request.get "price")) ∧
      (createOrder env lib this symbol type side amount price params).events.head? =
        some (Event.log [JsVal.obj request])) ∧
    ((∃ request : Obj,
        reserveRequest env lib this market symbol type side amount price = Except.ok request) ↔
      market ≠ JsVal.undefined ∧
      (∃ precise orderAmount : JsVal, env.amountToPrecision symbol amount = Except.ok precise ∧
        env.toWei precise = Except.ok orderAmount) ∧
      (type = "limit" → ∃ p : JsVal, priceToPrecision env symbol price = Except.ok p)) ∧
    reserveMethod env type = "privatePost" ++ env.capitalize type ++ "OrderReserve" := by
  have hmethod : reserveMethod env type =
      "privatePost" ++ env.capitalize type ++ "OrderReserve" := by
    unfold reserveMethod orderMethod
    rw [String.append_assoc ("privatePost" ++ env.capitalize type)]
    rfl
  refine ⟨?_, ?_, hmethod⟩
  · intro request hr
    have hhead : (createOrder env lib this symbol type side amount price params).events.head? =
        some (Event.log [JsVal.obj request]) := by
      rw [createOrder_of_request env lib this symbol type side amount price params
        market request hm hr]
      rfl
    obtain ⟨baseId, quoteId, precise, orderAmount, hb, hq, ha, hw, hcase⟩ :=
      (reserveRequest_ok_iff env lib this market symbol type side amount price request).mp hr
    rcases hcase with ⟨ht, p, hp, rfl⟩ | ⟨ht, rfl⟩
    · refine ⟨by simp [Obj.hasKey], rfl, hb, hq, rfl, ⟨precise, ha, hw⟩, ?_, fun _ => hp, hhead⟩
      exact ⟨fun _ => ht, fun _ => rfl⟩
    · refine ⟨by simp [Obj.hasKey], rfl, hb, hq, rfl, ⟨precise, ha, hw⟩, ?_,
        fun h => absurd h ht, hhead⟩
      exact ⟨fun h => by simp [Obj.hasKey] at h, fun h => absurd h ht⟩
  · constructor
    · rintro ⟨request, hr⟩
      obtain ⟨baseId, quoteId, precise, orderAmount, hb, hq, ha, hw, hcase⟩ :=
        (reserveRequest_ok_iff env lib this market symbol type side amount price request).mp hr
      refine ⟨?_, ⟨precise, orderAmount, ha, hw⟩, ?_⟩
      · intro hu
        rw [hu] at hb
        exact Except.noConfusion hb
      · intro ht
        rcases hcase with ⟨_, p, hp, _⟩ | ⟨hne, _⟩
        · exact ⟨p, hp⟩
        · exact absurd ht hne
    · rintro ⟨hu, ⟨precise, orderAmount, ha, hw⟩, hprice⟩
      have hread : ∀ name : String, ∃ v, readNamed market name = Except.ok v := by
        intro name
        cases market with
        | undefined => exact absurd rfl hu
        | str s => exact ⟨_, rfl⟩
        | bn n => exact ⟨_, rfl⟩
        | arr items => exact ⟨_, rfl⟩
        | obj fields => exact ⟨_, rfl⟩
      obtain ⟨baseId, hb⟩ := hread "baseId"
      obtain ⟨quoteId, hq⟩ := hread "quoteId"
      by_cases ht : type = "limit"
      · obtain ⟨p, hp⟩ := hprice ht
        exact ⟨_, (reserveRequest_ok_iff env lib this market symbol type side amount price
          _).mpr ⟨baseId, quoteId, precise, orderAmount, hb, hq, ha, hw,
            Or.inl ⟨ht, p, hp, rfl⟩⟩⟩
      · exact ⟨_, (reserveRequest_ok_iff env lib this market symbol type side amount price
          _).mpr ⟨baseId, quoteId, precise, orderAmount, hb, hq, ha, hw, Or.inr ⟨ht, rfl⟩⟩⟩

set_option maxRecDepth 4000 in
/-- C15 at a limit order of the sample exchange on the market `REP/WETH`, whose entry in
the table of markets carries a price precision: the request is built, holds a price, and
is the first thing the run logs; with an empty table of markets the same call throws the
`TypeError` of `this.markets[symbol]['precision']` and logs nothing. -/
theorem createOrder_reserve_request_witness :
    reserveRequest sampleEnv sampleLib sampleExchange sampleMarket "REP/WETH" "limit" "buy"
        (JsVal.str "1") (JsVal.str "0.5") =
      Except.ok
        [("walletAddress", JsVal.str "0x00ba938cc0df182c25108d7bf2ee3d37bce07513"),
         ("baseTokenAddress", JsVal.str "0x6ff6c0ff1d68b964901f986d4c9fa3ac68346570"),
         ("quoteTokenAddress", JsVal.str "0xd0a1e359811322d97991e03f863a0c30c2cf029c"),
         ("side", JsVal.str "buy"),
         ("orderAmount", JsVal.str "1"),
         ("feeOption", JsVal.str "feeInNative"),
         ("price", JsVal.str "0.5")] ∧
    (createOrder sampleEnv sampleLib sampleExchange "REP/WETH" "limit" "buy" (JsVal.str "1")
        (JsVal.str "0.5") []).events.head? =
      some (Event.log [JsVal.obj
        [("walletAddress", JsVal.str "0x00ba938cc0df182c25108d7bf2ee3d37bce07513"),
         ("baseTokenAddress", JsVal.str "0x6ff6c0ff1d68b964901f986d4c9fa3ac68346570"),
         ("quoteTokenAddress", JsVal.str "0xd0a1e359811322d97991e03f863a0c30c2cf029c"),
         ("side", JsVal.str "buy"),
         ("orderAmount", JsVal.str "1"),
         ("feeOption", JsVal.str "feeInNative"),
         ("price", JsVal.str "0.5")]]) ∧
    reserveMethod sampleEnv "limit" = "privatePostLimitOrderReserve" ∧
    reserveRequest sampleEnvNoMarkets sampleLib sampleExchange sampleMarket "REP/WETH" "limit"
        "buy" (JsVal.str "1") (JsVal.str "0.5") = Except.error Err.TypeError ∧
    (createOrder sampleEnvNoMarkets sampleLib sampleExchange "REP/WETH" "limit" "buy"
        (JsVal.str "1") (JsVal.str "0.5") []).events = [] :=
  ⟨rfl,
   ((createOrder_reserve_request sampleEnv sampleLib sampleExchange "REP/WETH" "limit" "buy"
      (JsVal.str "1") (JsVal.str "0.5") [] sampleMarket rfl).1 _ rfl).2.2.2.2.2.2.2.2,
   (createOrder_reserve_request sampleEnv sampleLib sampleExchange "REP/WETH" "limit" "buy"
      (JsVal.str "1") (JsVal.str "0.5") [] sampleMarket rfl).2.2,
   rfl, rfl⟩

/-! ## handleErrors and parseOrderStatus -/

theorem exceptions_lookup_class (key : String) (cls : ErrClass)
    (h : exceptions.lookup key = some cls) : cls = ErrClass.ExchangeError := by
  unfold exceptions at h
  simp only [List.lookup] at h
  repeat' split at h
  all_goals first
    | exact (Option.some.inj h).symm
    | exact Option.noConfusion h

theorem throwFeedback_not_authentication (message : Option String) (feedback msg : String) :
    throwFeedback message feedback ≠ Err.AuthenticationError msg := by
  unfold throwFeedback
  dsimp only
  split
  · rename_i cls hcls
    rw [exceptions_lookup_class _ cls hcls]
    exact fun h => Err.noConfusion h
  · split
    · split
      · exact fun h => Err.noConfusion h
      · exact fun h => Err.noConfusion h
    · exact fun h => Err.noConfusion h

theorem throwFeedback_of_plain (message : Option String) (feedback : String)
    (h : message.getD "undefined" ∉ objectPrototypeKeys) :
    throwFeedback message feedback = Err.ExchangeError feedback := by
  unfold throwFeedback
  dsimp only
  split
  · rename_i cls hcls
    rw [exceptions_lookup_class _ cls hcls]
    rfl
  · rw [if_neg h]

theorem handleErrors_str (env : Env) (this : Exchange) (a b c d e : JsVal) (body : String) :
    handleErrors env this a b c d e (JsVal.str body) =
      if jsLength body < 2 then Except.ok ()
      else if body = "\x27Authentication failed\x27" then
        Except.error (Err.AuthenticationError (this.id ++ " " ++ body))
      else if body.data.head? = some '\x7b' ∨ body.data.head? = some '[' then
        match env.parseJson body with
        | none => Except.error Err.SyntaxError
        | some (JsVal.obj response) =>
          if Obj.hasKey response "errors" then
            Except.error (throwFeedback (env.safeString (JsVal.obj response) "error")
              (this.id ++ " " ++ json response))
          else Except.ok ()
        | some (JsVal.arr _) => Except.ok ()
        | some _ => Except.error Err.TypeError
      else Except.ok () := by
  rfl

theorem handleErrors_authentication_iff (env : Env) (this : Exchange) (a b c d e : JsVal)
    (body : JsVal) (msg : String) :
    handleErrors env this a b c d e body = Except.error (Err.AuthenticationError msg) ↔
      body = JsVal.str "\x27Authentication failed\x27" ∧
      msg = this.id ++ " " ++ "\x27Authentication failed\x27" := by
  constructor
  · intro h
    cases body with
    | str s =>
      rw [handleErrors_str] at h
      split at h
      · exact Except.noConfusion h
      · split at h
        · rename_i hs
          have h1 := Except.error.inj h
          have h2 := Err.AuthenticationError.inj h1
          subst hs
          exact ⟨rfl, h2.symm⟩
        · split at h
          · split at h
            · exact absurd (Except.error.inj h) (fun h' => Err.noConfusion h')
            · split at h
              · exact absurd (Except.error.inj h) (throwFeedback_not_authentication _ _ _)
              · exact Except.noConfusion h
            · exact Except.noConfusion h
            · exact absurd (Except.error.inj h) (fun h' => Err.noConfusion h')
          · exact Except.noConfusion h
    | undefined => exact Except.noConfusion h
    | bn n => exact Except.noConfusion h
    | arr items => exact Except.noConfusion h
    | obj fields => exact Except.noConfusion h
  · rintro ⟨rfl, rfl⟩
    rw [handleErrors_str]
    rw [if_neg (by decide), if_pos rfl]

/-- C19: `handleErrors` raises `AuthenticationError` exactly when the body is the plain
string `'Authentication failed'` with its single quotes, and the message is then the
exchange id, a space and that body; for a body that is not a string, or a string
shorter than 2 characters, it returns without raising. -/
theorem handleErrors_authentication (env : Env) (this : Exchange) (a b c d e : JsVal) :
    (∀ (body : JsVal) (msg : String),
      handleErrors env this a b c d e body = Except.error (Err.AuthenticationError msg) ↔
        body = JsVal.str "\x27Authentication failed\x27" ∧
        msg = this.id ++ " " ++ "\x27Authentication failed\x27") ∧
    (∀ body : JsVal, (∀ s : String, body ≠ JsVal.str s) →
      handleErrors env this a b c d e body = Except.ok ()) ∧
    (∀ s : String, jsLength s < 2 →
      handleErrors env this a b c d e (JsVal.str s) = Except.ok ()) := by
  refine ⟨handleErrors_authentication_iff env this a b c d e, ?_, ?_⟩
  · intro body hbody
    cases body with
    | str s => exact absurd rfl (hbody s)
    | undefined => rfl
    | bn n => rfl
    | arr items => rfl
    | obj fields => rfl
  · intro s hs
    rw [handleErrors_str, if_pos hs]

/-- C19 at the body `'Authentication failed'`, at an object body and at a one-character
body. -/
theorem handleErrors_authentication_witness :
    handleErrors sampleEnv sampleExchange JsVal.undefined JsVal.undefined JsVal.undefined
        JsVal.undefined JsVal.undefined (JsVal.str "\x27Authentication failed\x27") =
      Except.error (Err.AuthenticationError "theocean \x27Authentication failed\x27") ∧
    handleErrors sampleEnv sampleExchange JsVal.undefined JsVal.undefined JsVal.undefined
        JsVal.undefined JsVal.undefined (JsVal.obj []) = Except.ok () ∧
    handleErrors sampleEnv sampleExchange JsVal.undefined JsVal.undefined JsVal.undefined
        JsVal.undefined JsVal.undefined (JsVal.str "\x7b") = Except.ok () :=
  ⟨((handleErrors_authentication sampleEnv sampleExchange JsVal.undefined JsVal.undefined
      JsVal.undefined JsVal.undefined JsVal.undefined).1 _ _).mpr ⟨rfl, rfl⟩,
   (handleErrors_authentication sampleEnv sampleExchange JsVal.undefined JsVal.undefined
      JsVal.undefined JsVal.undefined JsVal.undefined).2.1 (JsVal.obj [])
      (fun s h => JsVal.noConfusion h),
   (handleErrors_authentication sampleEnv sampleExchange JsVal.undefined JsVal.undefined
      JsVal.undefined JsVal.undefined JsVal.undefined).2.2 "\x7b" (by decide)⟩

/-- C16 (as the code behaves): for an object body with a top-level `errors` key
`handleErrors` throws `ExchangeError` with the message `id + ' ' + JSON (response)`
as long as the text read under `error` is not a name inherited from `Object.prototype`;
for the body `{"error":"toString","errors":[]}` the test `message in exceptions` is true
through the prototype and the `new` on the inherited function fails with a `TypeError`,
so neither `ExchangeError` nor the relay's text is raised. -/
theorem handleErrors_errors_key :
    (∀ (env : Env) (this : Exchange) (a b c d e : JsVal) (body : String) (response : Obj),
      ¬ jsLength body < 2 → body ≠ "\x27Authentication failed\x27" →
      body.data.head? = some '\x7b' → env.parseJson body = some (JsVal.obj response) →
      Obj.hasKey response "errors" = true →
      (env.safeString (JsVal.obj response) "error").getD "undefined" ∉ objectPrototypeKeys →
      handleErrors env this a b c d e (JsVal.str body) =
        Except.error (Err.ExchangeError (this.id ++ " " ++ json response))) ∧
    handleErrors sampleEnv sampleExchange JsVal.undefined JsVal.undefined JsVal.undefined
        JsVal.undefined JsVal.undefined
        (JsVal.str "\x7b\"error\":\"toString\",\"errors\":[]\x7d") =
      Except.error Err.TypeError := by
  constructor
  · intro env this a b c d e body response hlen hauth hhead hparse hkey hplain
    rw [handleErrors_str, if_neg hlen, if_neg hauth, if_pos (Or.inl hhead), hparse]
    dsimp only
    rw [if_pos hkey, throwFeedback_of_plain _ _ hplain]
  · rfl

/-- C16 at the documented relay payload
`{"message":"Logic validation failed for 'query'","errors":[]}`. -/
theorem handleErrors_errors_key_witness :
    handleErrors sampleEnv sampleExchange JsVal.undefined JsVal.undefined JsVal.undefined
        JsVal.undefined JsVal.undefined
        (JsVal.str
          "\x7b\"message\":\"Logic validation failed for \x27query\x27\",\"errors\":[]\x7d") =
      Except.error (Err.ExchangeError
        "theocean \x7b\"message\":\"Logic validation failed for \x27query\x27\",\"errors\":[]\x7d") :=
  handleErrors_errors_key.1 sampleEnv sampleExchange JsVal.undefined JsVal.undefined
    JsVal.undefined JsVal.undefined JsVal.undefined _
    [("message", JsVal.str "Logic validation failed for \x27query\x27"),
     ("errors", JsVal.arr [])]
    (by decide) (by decide) (by decide) rfl (by decide) (by decide)

theorem statuses_lookup_none (s : String) (hs : s ∉ ["0", "1", "2", "3"]) :
    statuses.lookup s = none := by
  simp only [List.mem_cons, List.mem_singleton, List.not_mem_nil, or_false, not_or] at hs
  obtain ⟨h0, h1, h2, h3⟩ := hs
  simp [statuses, List.lookup, beq_eq_false_iff_ne.mpr h0, beq_eq_false_iff_ne.mpr h1,
    beq_eq_false_iff_ne.mpr h2, beq_eq_false_iff_ne.mpr h3]

/-- C20 (as the code behaves): `parseOrderStatus` maps `'0'` to `'open'`, `'1'` to
`'closed'`, `'2'` and `'3'` to `'canceled'`, returns every other status string unchanged
unless it is a name inherited from `Object.prototype`, and is idempotent on the strings
it returns; for the status `'constructor'` the test `status in statuses` is true through
the prototype and the value returned is the inherited one, not the string. -/
theorem parseOrderStatus_table :
    parseOrderStatus "0" = StatusValue.str "open" ∧
    parseOrderStatus "1" = StatusValue.str "closed" ∧
    parseOrderStatus "2" = StatusValue.str "canceled" ∧
    parseOrderStatus "3" = StatusValue.str "canceled" ∧
    (∀ s : String, s ∉ ["0", "1", "2", "3"] → s ∉ objectPrototypeKeys →
      parseOrderStatus s = StatusValue.str s) ∧
    (∀ s t : String, parseOrderStatus s = StatusValue.str t →
      parseOrderStatus t = StatusValue.str t) ∧
    parseOrderStatus "constructor" = StatusValue.inherited "constructor" ∧
    parseOrderStatus "constructor" ≠ StatusValue.str "constructor" := by
  have hother : ∀ s : String, s ∉ ["0", "1", "2", "3"] → s ∉ objectPrototypeKeys →
      parseOrderStatus s = StatusValue.str s := by
    intro s hs hp
    have hl : statuses.lookup s = none := statuses_lookup_none s hs
    unfold parseOrderStatus
    rw [hl]
    dsimp only
    rw [if_neg hp]
  refine ⟨by decide, by decide, by decide, by decide, hother, ?_, by decide, by decide⟩
  intro s t hst
  by_cases hs : s ∈ ["0", "1", "2", "3"]
  · simp only [List.mem_cons, List.mem_singleton, List.not_mem_nil, or_false] at hs
    rcases hs with rfl | rfl | rfl | rfl
    · have : t = "open" := by
        have h := hst; rw [show parseOrderStatus "0" = StatusValue.str "open" by decide] at h
        exact (StatusValue.str.inj h).symm
      subst this; decide
    · have : t = "closed" := by
        have h := hst; rw [show parseOrderStatus "1" = StatusValue.str "closed" by decide] at h
        exact (StatusValue.str.inj h).symm
      subst this; decide
    · have : t = "canceled" := by
        have h := hst; rw [show parseOrderStatus "2" = StatusValue.str "canceled" by decide] at h
        exact (StatusValue.str.inj h).symm
      subst this; decide
    · have : t = "canceled" := by
        have h := hst; rw [show parseOrderStatus "3" = StatusValue.str "canceled" by decide] at h
        exact (StatusValue.str.inj h).symm
      subst this; decide
  · by_cases hp : s ∈ objectPrototypeKeys
    · have hl : statuses.lookup s = none := statuses_lookup_none s hs
      unfold parseOrderStatus at hst
      rw [hl] at hst
      dsimp only at hst
      rw [if_pos hp] at hst
      exact StatusValue.noConfusion hst
    · have h := hother s hs hp
      rw [h] at hst
      have : s = t := StatusValue.str.inj hst
      subst this
      exact h

/-! ## The reference hash and what is logged -/

theorem signOrder_logs_reference_hash (lib : Lib) (this : Exchange) (order : Obj)
    (hash : String) (h : getOrderHashHex lib order = Except.ok hash) :
    [JsVal.str "orderHash:", JsVal.str hash] ∈ (signOrder lib this order).log := by
  unfold signOrder
  simp only [h]
  repeat' split
  all_goals simp

/-- C18: for every order whose integer fields are decimal strings, the hash that
`signOrder` computes locally equals the hash of the reference `getOrderHashHex` quoted in
the comment above it, so the two hashes `signOrder` logs are the same string. -/
theorem signOrder_hash_matches_reference (lib : Lib) (this : Exchange) (order : Obj)
    (_hdec : ∀ k ∈ integerFields, isDecimalString (order.get k) = true) :
    signOrderHash lib this order = getOrderHashHex lib order ∧
    (∀ hash : String, signOrderHash lib this order = Except.ok hash →
      [JsVal.str "orderHash:", JsVal.str hash] ∈ (signOrder lib this order).log ∧
      [JsVal.str "orderHas2:", JsVal.str hash] ∈ (signOrder lib this order).log) := by
  have heq : signOrderHash lib this order = getOrderHashHex lib order := by
    rw [signOrderHash_eq, getOrderHashHex_eq]
  refine ⟨heq, ?_⟩
  intro hash hh
  exact ⟨signOrder_logs_reference_hash lib this order hash (heq ▸ hh),
    signOrder_logs_hash lib this order hash hh⟩

set_option maxRecDepth 4000 in
/-- C18 at the order built from the hard-coded reservation. -/
theorem signOrder_hash_matches_reference_witness :
    signOrderHash sampleLib sampleExchange sampleOrder =
      getOrderHashHex sampleLib sampleOrder :=
  (signOrder_hash_matches_reference sampleLib sampleExchange sampleOrder (by decide)).1

/-! ## What the log shows of the private key -/

theorem occursIn_iff (run text : List Char) : occursIn run text = true ↔ run <:+: text := by
  induction text with
  | nil => simp [occursIn, List.isEmpty_iff]
  | cons c rest ih =>
    rw [occursIn, Bool.or_eq_true, ih, List.infix_cons_iff, List.isPrefixOf_iff_prefix]

theorem showsKey_iff (key text : String) :
    showsKey key text = true ↔ key.data.drop 2 <:+: text.data :=
  occursIn_iff _ _

theorem validPrivateKey_length (key : String) (h : validPrivateKey key = true) :
    (key.data.drop 2).length = 64 := by
  unfold validPrivateKey at h
  split at h
  · rename_i digits hd
    rw [hd]
    simp only [Bool.and_eq_true, beq_iff_eq] at h
    simpa using h.1
  · exact absurd h (by simp)

theorem showsKey_of_short (key text : String) (hkey : validPrivateKey key = true)
    (hlen : text.data.length < 64) : showsKey key text = false := by
  cases h : showsKey key text with
  | false => rfl
  | true =>
    have hle := ((showsKey_iff key text).mp h).length_le
    rw [validPrivateKey_length key hkey] at hle
    omega

theorem showsKey_of_append (key pre text : String) (h : showsKey key (pre ++ text) = false) :
    showsKey key text = false := by
  cases ht : showsKey key text with
  | false => rfl
  | true =>
    have hin := (showsKey_iff key text).mp ht
    have : showsKey key (pre ++ text) = true := by
      rw [showsKey_iff, String.data_append]
      exact hin.trans ((List.suffix_append pre.data text.data).isInfix)
    rw [h] at this
    exact absurd this (by simp)

theorem anyText_get (p : String → Bool) (fields : List (String × JsVal)) (k : String)
    (h : anyTextFields p fields = false) : anyText p (Obj.get fields k) = false := by
  induction fields with
  | nil => simp [Obj.get, anyText]
  | cons kv rest ih =>
    obtain ⟨k', v⟩ := kv
    simp only [anyTextFields, Bool.or_eq_false_iff] at h
    by_cases hk : k' = k
    · simp [Obj.get, hk, h.1.2]
    · simp only [Obj.get, hk, if_false]
      exact ih h.2

theorem holdsKey_readNamed (key : String) (v w : JsVal) (name : String)
    (hv : holdsKey key v = false) (hr : readNamed v name = Except.ok w) :
    holdsKey key w = false := by
  cases v with
  | undefined => exact Except.noConfusion hr
  | str s => rw [← Except.ok.inj hr]; rfl
  | bn n => rw [← Except.ok.inj hr]; rfl
  | arr items => rw [← Except.ok.inj hr]; rfl
  | obj fields =>
    rw [← Except.ok.inj hr]
    exact anyText_get _ fields name (by simpa [holdsKey, anyText] using hv)

theorem holdsKey_sigTriplet (key : String) (sig : ECSig)
    (h : holdsKey key (sigTriplet sig) = false) :
    showsKey key (String.mk (Nat.toDigits 16 sig.v)) = false := by
  simp only [holdsKey, sigTriplet, anyText, anyTextFields, Bool.or_eq_false_iff] at h
  exact showsKey_of_append key "0x" _ h.1.2

theorem holdsKey_str (key text : String) :
    holdsKey key (JsVal.str text) = showsKey key text := by
  simp [holdsKey, anyText]

theorem signOrder_log_hides_key (lib : Lib) (this : Exchange) (order : Obj)
    (hkey : validPrivateKey this.privateKey = true)
    (hfields : ∀ unpacked : List JsVal, signOrderUnpacked order = Except.ok unpacked →
      holdsKey this.privateKey (JsVal.arr unpacked) = false)
    (hsigner : SignerOutputsHideKey lib this order) :
    ∀ entry ∈ (signOrder lib this order).log, ∀ v ∈ entry,
      holdsKey this.privateKey v = false := by
  intro entry hentry
  have hlabel : ∀ text : String, text.data.length < 64 →
      holdsKey this.privateKey (JsVal.str text) = false := by
    intro text hlen
    rw [holdsKey_str]
    exact showsKey_of_short _ _ hkey hlen
  unfold signOrder at hentry
  cases hg : getOrderHashHex lib order with
  | error e =>
    rw [hg] at hentry
    simp at hentry
  | ok orderHash =>
    have hh0 : signOrderHash lib this order = Except.ok orderHash := by
      rw [signOrderHash_eq, ← getOrderHashHex_eq, hg]
    obtain ⟨hhash, hsig3, hsign⟩ := hsigner orderHash hh0
    have e1 : ∀ v ∈ [JsVal.str "orderHash:", JsVal.str orderHash],
        holdsKey this.privateKey v = false := by
      intro v hv
      simp only [List.mem_cons, List.mem_singleton, List.not_mem_nil, or_false] at hv
      rcases hv with rfl | rfl
      · exact hlabel _ (by decide)
      · rw [holdsKey_str]; exact hhash
    have e3 : ∀ v ∈ [JsVal.str "orderHas2:", JsVal.str orderHash],
        holdsKey this.privateKey v = false := by
      intro v hv
      simp only [List.mem_cons, List.mem_singleton, List.not_mem_nil, or_false] at hv
      rcases hv with rfl | rfl
      · exact hlabel _ (by decide)
      · rw [holdsKey_str]; exact hhash
    rw [hg] at hentry
    dsimp only at hentry
    cases hu : signOrderUnpacked order with
    | error e =>
      rw [hu] at hentry
      simp only [List.mem_singleton] at hentry
      subst hentry
      exact e1
    | ok unpacked =>
      have e2 : ∀ v ∈ [JsVal.arr unpacked], holdsKey this.privateKey v = false := by
        intro v hv
        simp only [List.mem_singleton] at hv
        subst hv
        exact hfields unpacked hu
      rw [hu] at hentry
      dsimp only at hentry
      cases hs : soliditySHA3 lib signOrderTypes unpacked with
      | error e =>
        rw [hs] at hentry
        simp only [List.singleton_append, List.mem_cons, List.mem_singleton, List.not_mem_nil,
          or_false] at hentry
        rcases hentry with rfl | rfl
        · exact e1
        · exact e2
      | ok sha =>
        have hh1 : signOrderHash lib this order =
            Except.ok ("0x" ++ String.mk (toHex sha)) := by
          unfold signOrderHash
          rw [hu]
          simp only [bind, Except.bind, hs]
          rfl
        have hsame : "0x" ++ String.mk (toHex sha) = orderHash :=
          Except.ok.inj (hh1.symm.trans hh0)
        rw [hs] at hentry
        dsimp only at hentry
        rw [hsame] at hentry
        have lift : ∀ x, x ∈ [[JsVal.str "orderHash:", JsVal.str orderHash]] ++
            [[JsVal.arr unpacked]] ++
            [[JsVal.str "orderHas2:", JsVal.str orderHash]] →
            ∀ v ∈ x, holdsKey this.privateKey v = false := by
          intro x hx
          simp only [List.singleton_append, List.cons_append, List.nil_append, List.mem_cons,
            List.mem_singleton, List.not_mem_nil, or_false] at hx
          rcases hx with rfl | rfl | rfl
          · exact e1
          · exact e2
          · exact e3
        cases hd : lib.decryptAccountFromPrivateKey this.privateKey with
        | error e =>
          rw [hd] at hentry
          exact lift entry hentry
        | ok acc =>
          rw [hd] at hentry
          dsimp only at hentry
          cases hsg : acc.sign orderHash (String.mk (this.privateKey.data.drop 2)) with
          | error e =>
            rw [hsg] at hentry
            exact lift entry hentry
          | ok signature =>
            obtain ⟨hsignature, hsig2⟩ := hsign acc signature hd hsg
            rw [hsg] at hentry
            dsimp only at hentry
            split at hentry
            · rename_i messageHash hmh
              cases h2 : lib.ecsign (bufferFromHex (messageHash.data.drop 2))
                  (bufferFromHex (this.privateKey.data.drop 2)) with
              | error e =>
                rw [h2] at hentry
                exact lift entry hentry
              | ok sig2 =>
                have htrip2 := hsig2 messageHash sig2 hmh h2
                rw [h2] at hentry
                dsimp only at hentry
                cases h3 : lib.ecsign (bufferFromHex (orderHash.data.drop 2))
                    (bufferFromHex (this.privateKey.data.drop 2)) with
                | error e =>
                  rw [h3] at hentry
                  exact lift entry hentry
                | ok sig3 =>
                  have htrip3 := hsig3 sig3 h3
                  rw [h3] at hentry
                  dsimp only at hentry
                  rw [List.mem_append] at hentry
                  rcases hentry with hentry | hentry
                  · exact lift entry hentry
                  · simp only [List.mem_cons, List.mem_singleton, List.not_mem_nil,
                      or_false] at hentry
                    rcases hentry with rfl | rfl | rfl | rfl | rfl
                    · intro v hv
                      simp only [List.mem_singleton] at hv
                      subst hv
                      exact hsignature
                    · intro v hv
                      simp only [List.mem_singleton] at hv
                      subst hv
                      exact hlabel _ (by decide)
                    · intro v hv
                      simp only [List.mem_singleton] at hv
                      subst hv
                      rw [holdsKey_str]
                      exact holdsKey_sigTriplet _ sig2 htrip2
                    · intro v hv
                      simp only [List.mem_singleton] at hv
                      subst hv
                      exact htrip2
                    · intro v hv
                      simp only [List.mem_singleton] at hv
                      subst hv
                      exact htrip3
            · exact lift entry hentry

theorem reserveRequest_hides_key (env : Env) (lib : Lib) (this : Exchange) (market : JsVal)
    (symbol type side : String) (amount price : JsVal) (request : Obj)
    (hkey : validPrivateKey this.privateKey = true)
    (huid : showsKey this.privateKey (lib.toLowerCase this.uid) = false)
    (hside : showsKey this.privateKey side = false)
    (hmarket : holdsKey this.privateKey market = false)
    (hamount : ∀ precise orderAmount : JsVal,
      env.amountToPrecision symbol amount = Except.ok precise →
      env.toWei precise = Except.ok orderAmount →
      holdsKey this.privateKey orderAmount = false)
    (hprice : type = "limit" → ∀ p : JsVal, priceToPrecision env symbol price = Except.ok p →
      holdsKey this.privateKey p = false)
    (hr : reserveRequest env lib this market symbol type side amount price = Except.ok request) :
    holdsKey this.privateKey (JsVal.obj request) = false := by
  obtain ⟨baseId, quoteId, precise, orderAmount, hb, hq, ha, hw, hcase⟩ :=
    (reserveRequest_ok_iff env lib this market symbol type side amount price request).mp hr
  have hname : ∀ name : String, name.data.length < 64 →
      showsKey this.privateKey name = false :=
    fun name hlen => showsKey_of_short _ _ hkey hlen
  have hbase : anyText (showsKey this.privateKey) baseId = false :=
    holdsKey_readNamed _ market baseId "baseId" hmarket hb
  have hquote : anyText (showsKey this.privateKey) quoteId = false :=
    holdsKey_readNamed _ market quoteId "quoteId" hmarket hq
  have hamt : anyText (showsKey this.privateKey) orderAmount = false :=
    hamount precise orderAmount ha hw
  rcases hcase with ⟨ht, p, hp, rfl⟩ | ⟨_, rfl⟩
  · have hpr : anyText (showsKey this.privateKey) p = false := hprice ht p hp
    simp only [holdsKey, anyText, anyTextFields, Bool.or_eq_false_iff]
    refine ⟨⟨hname _ (by decide), huid⟩, ⟨hname _ (by decide), hbase⟩,
      ⟨hname _ (by decide), hquote⟩, ⟨hname _ (by decide), hside⟩,
      ⟨hname _ (by decide), hamt⟩, ⟨hname _ (by decide), hname _ (by decide)⟩,
      ⟨hname _ (by decide), hpr⟩, trivial⟩
  · simp only [holdsKey, anyText, anyTextFields, Bool.or_eq_false_iff]
    refine ⟨⟨hname _ (by decide), huid⟩, ⟨hname _ (by decide), hbase⟩,
      ⟨hname _ (by decide), hquote⟩, ⟨hname _ (by decide), hside⟩,
      ⟨hname _ (by decide), hamt⟩, ⟨hname _ (by decide), hname _ (by decide)⟩, trivial⟩

theorem createOrder_log_hides_key (env : Env) (lib : Lib) (this : Exchange)
    (symbol type side : String) (amount price : JsVal) (params : Obj)
    (hkey : validPrivateKey this.privateKey = true)
    (hresponse : holdsKey this.privateKey (JsVal.obj reserveResponse) = false)
    (huid : showsKey this.privateKey (lib.toLowerCase this.uid) = false)
    (hside : showsKey this.privateKey side = false)
    (hmarket : ∀ market : JsVal, env.market symbol = Except.ok market →
      holdsKey this.privateKey market = false)
    (hamount : ∀ precise orderAmount : JsVal,
      env.amountToPrecision symbol amount = Except.ok precise →
      env.toWei precise = Except.ok orderAmount →
      holdsKey this.privateKey orderAmount = false)
    (hprice : type = "limit" → ∀ p : JsVal, priceToPrecision env symbol price = Except.ok p →
      holdsKey this.privateKey p = false)
    (hfields : ∀ unpacked : List JsVal,
      signOrderUnpacked (marketOrder lib this reserveResponse) = Except.ok unpacked →
      holdsKey this.privateKey (JsVal.arr unpacked) = false)
    (hsigner : SignerOutputsHideKey lib this (marketOrder lib this reserveResponse)) :
    ∀ ev ∈ (createOrder env lib this symbol type side amount price params).events,
      ∃ args : List JsVal, ev = Event.log args ∧
        ∀ v ∈ args, holdsKey this.privateKey v = false := by
  intro ev hev
  cases hm : env.market symbol with
  | error e =>
    rw [createOrder_of_market_error env lib this symbol type side amount price params e hm]
      at hev
    simp at hev
  | ok market =>
    cases hr : reserveRequest env lib this market symbol type side amount price with
    | error e =>
      rw [createOrder_of_request_error env lib this symbol type side amount price params
        market e hm hr] at hev
      simp at hev
    | ok request =>
      rw [createOrder_of_request env lib this symbol type side amount price params
        market request hm hr, createOrderFrom_log] at hev
      simp only [List.singleton_append, List.map_cons, List.mem_cons, List.mem_map] at hev
      rcases hev with rfl | rfl | ⟨entry, hentry, rfl⟩
      · refine ⟨_, rfl, ?_⟩
        intro v hv
        simp only [List.mem_singleton] at hv
        subst hv
        exact reserveRequest_hides_key env lib this market symbol type side amount price
          request hkey huid hside (hmarket market hm) hamount hprice hr
      · refine ⟨_, rfl, ?_⟩
        intro v hv
        simp only [List.mem_singleton] at hv
        subst hv
        exact hresponse
      · exact ⟨entry, rfl, signOrder_log_hides_key lib this _ hkey hfields hsigner entry hentry⟩

theorem signOrder_log_of_full_run (lib : Lib) (this : Exchange) (order : Obj)
    (hash : String) (unpacked : List JsVal) (acc : Account) (signature : JsVal)
    (messageHash : String) (sig2 sig3 : ECSig)
    (hh : signOrderHash lib this order = Except.ok hash)
    (hu : signOrderUnpacked order = Except.ok unpacked)
    (hd : lib.decryptAccountFromPrivateKey this.privateKey = Except.ok acc)
    (hsg : acc.sign hash (String.mk (this.privateKey.data.drop 2)) = Except.ok signature)
    (hmh : signature.get "messageHash" = JsVal.str messageHash)
    (h2 : lib.ecsign (bufferFromHex (messageHash.data.drop 2))
      (bufferFromHex (this.privateKey.data.drop 2)) = Except.ok sig2)
    (h3 : lib.ecsign (bufferFromHex (hash.data.drop 2))
      (bufferFromHex (this.privateKey.data.drop 2)) = Except.ok sig3) :
    (signOrder lib this order).log =
      [[JsVal.str "orderHash:", JsVal.str hash],
       [JsVal.arr unpacked],
       [JsVal.str "orderHas2:", JsVal.str hash],
       [signature],
       [JsVal.str "----------------------------------------------------------"],
       [JsVal.str (String.mk (Nat.toDigits 16 sig2.v))],
       [sigTriplet sig2],
       [sigTriplet sig3]] := by
  have hg : getOrderHashHex lib order = Except.ok hash := by
    rw [getOrderHashHex_eq, ← signOrderHash_eq lib this order, hh]
  unfold signOrderHash at hh
  obtain ⟨u, hu2, hh⟩ := except_bind_ok_iff.mp hh
  have hsame : unpacked = u := Except.ok.inj (hu.symm.trans hu2)
  subst hsame
  obtain ⟨sha, hsha, hh⟩ := except_bind_ok_iff.mp hh
  have hhash : "0x" ++ String.mk (toHex sha) = hash := Except.ok.inj hh
  unfold signOrder
  simp only [hg, hu, hsha, hhash, hd, hsg, hmh, h2, h3]
  rfl

set_option maxRecDepth 8000 in
theorem sampleOrder_hash :
    signOrderHash keyedLib sampleExchange sampleOrder =
      Except.ok "0xa2dd1f8b4f2855406f6262f5feae4be9d48021ad2a6d76b682881d536734c98a" := by
  rfl

set_option maxRecDepth 8000 in
theorem sampleOrder_fields_hide_key (unpacked : List JsVal)
    (hu : signOrderUnpacked sampleOrder = Except.ok unpacked) :
    holdsKey sampleExchange.privateKey (JsVal.arr unpacked) = false := by
  have h : (match signOrderUnpacked sampleOrder with
      | Except.ok u => holdsKey sampleExchange.privateKey (JsVal.arr u)
      | Except.error _ => false) = false := by rfl
  rw [hu] at h
  exact h

set_option maxRecDepth 8000 in
theorem keyedLib_outputs_hide_key :
    SignerOutputsHideKey keyedLib sampleExchange sampleOrder := by
  intro hash hh
  have hhash : "0xa2dd1f8b4f2855406f6262f5feae4be9d48021ad2a6d76b682881d536734c98a" = hash :=
    Except.ok.inj (sampleOrder_hash.symm.trans hh)
  subst hhash
  refine ⟨by rfl, ?_, ?_⟩
  · intro sig3 h3
    have h := Except.ok.inj h3
    subst h
    rfl
  · intro acc signature hd hsg
    have hacc : keyedAccount = acc := Except.ok.inj hd
    subst hacc
    have hsig := Except.ok.inj hsg
    subst hsig
    refine ⟨by rfl, ?_⟩
    intro messageHash sig2 hmh h2
    have hm := JsVal.str.inj hmh
    subst hm
    have h := Except.ok.inj h2
    subst h
    rfl

/-- C14 (amended): provided the private key is well-formed, no value that `signOrder` or
`createOrder` writes to the log holds it (is a text that shows it, or has such a text among
its components) unless a value the code was given, or one returned to it by the digest or
the signing primitives, already does.  For `signOrder`: when the twelve field values of
the order and the outputs of the digest and of the signer (the hash text, the signature
object, the `(v, r, s)` of `sig2` and `sig3`) do not hold the key, no logged value does.
For `createOrder`: when moreover the lower-cased uid, the side, the market, the converted
amount, the price of a limit order and the hard-coded reservation response do not hold the
key, every event of the run is a log entry none of whose values holds the key.  The values
logged by a complete run of `signOrder` are the order hash under two labels, the unpacked
order fields, the signature object, a separator line, the recovery id of `sig2` and the
`(v, r, s)` triplets of `sig2` and `sig3`, and nothing else. -/
theorem log_never_holds_private_key (env : Env) (lib : Lib) (this : Exchange) (order : Obj)
    (symbol type side : String) (amount price : JsVal) (params : Obj)
    (hkey : validPrivateKey this.privateKey = true) :
    ((∀ unpacked : List JsVal, signOrderUnpacked order = Except.ok unpacked →
        holdsKey this.privateKey (JsVal.arr unpacked) = false) →
      SignerOutputsHideKey lib this order →
      ∀ entry ∈ (signOrder lib this order).log, ∀ v ∈ entry,
        holdsKey this.privateKey v = false) ∧
    (holdsKey this.privateKey (JsVal.obj reserveResponse) = false →
      showsKey this.privateKey (lib.toLowerCase this.uid) = false →
      showsKey this.privateKey side = false →
      (∀ market : JsVal, env.market symbol = Except.ok market →
        holdsKey this.privateKey market = false) →
      (∀ precise orderAmount : JsVal,
        env.amountToPrecision symbol amount = Except.ok precise →
        env.toWei precise = Except.ok orderAmount →
        holdsKey this.privateKey orderAmount = false) →
      (type = "limit" → ∀ p : JsVal, priceToPrecision env symbol price = Except.ok p →
        holdsKey this.privateKey p = false) →
      (∀ unpacked : List JsVal,
        signOrderUnpacked (marketOrder lib this reserveResponse) = Except.ok unpacked →
        holdsKey this.privateKey (JsVal.arr unpacked) = false) →
      SignerOutputsHideKey lib this (marketOrder lib this reserveResponse) →
      ∀ ev ∈ (createOrder env lib this symbol type side amount price params).events,
        ∃ args : List JsVal, ev = Event.log args ∧
          ∀ v ∈ args, holdsKey this.privateKey v = false) ∧
    (∀ (hash : String) (unpacked : List JsVal) (acc : Account) (signature : JsVal)
      (messageHash : String) (sig2 sig3 : ECSig),
      signOrderHash lib this order = Except.ok hash →
      signOrderUnpacked order = Except.ok unpacked →
      lib.decryptAccountFromPrivateKey this.privateKey = Except.ok acc →
      acc.sign hash (String.mk (this.privateKey.data.drop 2)) = Except.ok signature →
      signature.get "messageHash" = JsVal.str messageHash →
      lib.ecsign (bufferFromHex (messageHash.data.drop 2))
        (bufferFromHex (this.privateKey.data.drop 2)) = Except.ok sig2 →
      lib.ecsign (bufferFromHex (hash.data.drop 2))
        (bufferFromHex (this.privateKey.data.drop 2)) = Except.ok sig3 →
      (signOrder lib this order).log =
        [[JsVal.str "orderHash:", JsVal.str hash],
         [JsVal.arr unpacked],
         [JsVal.str "orderHas2:", JsVal.str hash],
         [signature],
         [JsVal.str "----------------------------------------------------------"],
         [JsVal.str (String.mk (Nat.toDigits 16 sig2.v))],
         [sigTriplet sig2],
         [sigTriplet sig3]]) :=
  ⟨fun hfields hsigner => signOrder_log_hides_key lib this order hkey hfields hsigner,
   fun hresponse huid hside hmarket hamount hprice hfields hsigner =>
     createOrder_log_hides_key env lib this symbol type side amount price params hkey
       hresponse huid hside hmarket hamount hprice hfields hsigner,
   fun hash unpacked acc signature messageHash sig2 sig3 hh hu hd hsg hmh h2 h3 =>
     signOrder_log_of_full_run lib this order hash unpacked acc signature messageHash sig2 sig3
       hh hu hd hsg hmh h2 h3⟩

set_option maxRecDepth 8000 in
/-- C14 (amended) at the sample exchange, whose key is well-formed, with primitives whose
signatures depend on the key, on the order built from the hard-coded reservation and on a
limit order for `REP/WETH`: none of the eight entries that `signOrder` logs, and no event
of the run of `createOrder`, holds the key. -/
theorem log_never_holds_private_key_witness :
    validPrivateKey sampleExchange.privateKey = true ∧
    (signOrder keyedLib sampleExchange sampleOrder).log.length = 8 ∧
    (∀ entry ∈ (signOrder keyedLib sampleExchange sampleOrder).log, ∀ v ∈ entry,
      holdsKey sampleExchange.privateKey v = false) ∧
    (∀ ev ∈ (createOrder sampleEnv keyedLib sampleExchange "REP/WETH" "limit" "buy"
        (JsVal.str "1") (JsVal.str "0.5") []).events,
      ∃ args : List JsVal, ev = Event.log args ∧
        ∀ v ∈ args, holdsKey sampleExchange.privateKey v = false) :=
  ⟨by decide, by rfl,
   (log_never_holds_private_key sampleEnv keyedLib sampleExchange sampleOrder "REP/WETH"
      "limit" "buy" (JsVal.str "1") (JsVal.str "0.5") [] (by decide)).1
      sampleOrder_fields_hide_key keyedLib_outputs_hide_key,
   (log_never_holds_private_key sampleEnv keyedLib sampleExchange sampleOrder "REP/WETH"
      "limit" "buy" (JsVal.str "1") (JsVal.str "0.5") [] (by decide)).2.1
      (by rfl) (by rfl) (by rfl)
      (fun market hm => by
        have h : sampleMarket = market := Except.ok.inj hm
        subst h
        rfl)
      (fun precise orderAmount ha hw => by
        have h1 : JsVal.str "1" = precise := Except.ok.inj ha
        subst h1
        have h2 : JsVal.str "1" = orderAmount := Except.ok.inj hw
        subst h2
        rfl)
      (fun _ p hp => by
        have h : JsVal.str "0.5" = p := Except.ok.inj hp
        subst h
        rfl)
      sampleOrder_fields_hide_key keyedLib_outputs_hide_key⟩

set_option maxRecDepth 8000 in
/-- C14 (as stated, refuted): for an exchange object whose `uid` is the text of its
well-formed private key, the first value `createOrder` logs, the reserve request, has the
private key as its `walletAddress`, so a logged value contains the private key as a
component. -/
theorem createOrder_logs_key_given_as_uid :
    validPrivateKey leakExchange.privateKey = true ∧
    leakExchange.uid = leakExchange.privateKey ∧
    (createOrder sampleEnv sampleLib leakExchange "REP/WETH" "market" "buy" (JsVal.str "1")
        JsVal.undefined []).events.head? =
      some (Event.log [JsVal.obj
        [("walletAddress", JsVal.str leakExchange.privateKey),
         ("baseTokenAddress", JsVal.str "0x6ff6c0ff1d68b964901f986d4c9fa3ac68346570"),
         ("quoteTokenAddress", JsVal.str "0xd0a1e359811322d97991e03f863a0c30c2cf029c"),
         ("side", JsVal.str "buy"),
         ("orderAmount", JsVal.str "1"),
         ("feeOption", JsVal.str "feeInNative")]]) ∧
    holdsKey leakExchange.privateKey (JsVal.obj
        [("walletAddress", JsVal.str leakExchange.privateKey),
         ("baseTokenAddress", JsVal.str "0x6ff6c0ff1d68b964901f986d4c9fa3ac68346570"),
         ("quoteTokenAddress", JsVal.str "0xd0a1e359811322d97991e03f863a0c30c2cf029c"),
         ("side", JsVal.str "buy"),
         ("orderAmount", JsVal.str "1"),
         ("feeOption", JsVal.str "feeInNative")]) = true :=
  ⟨by decide, rfl, by rfl, by rfl⟩

/-! ## sign: the public request, and request -/

theorem omitKeys_mem (o : Obj) (keys : List String) (kv : String × JsVal) :
    kv ∈ omitKeys o keys ↔ kv ∈ o ∧ kv.1 ∉ keys := by
  unfold omitKeys
  simp [List.mem_filter]

theorem omitKeys_hasKey (o : Obj) (keys : List String) (k : String) (hk : k ∈ keys) :
    Obj.hasKey (omitKeys o keys) k = false := by
  unfold Obj.hasKey
  rw [List.any_eq_false]
  intro kv hkv
  have h := (omitKeys_mem o keys kv).mp hkv
  intro heq
  have : kv.1 = k := by simpa using heq
  exact h.2 (this ▸ hk)

/-- C21: for every public request `sign` returns the caller's method, body and headers
unchanged; the url is `urls.api + '/' + version + '/' +` the path with its placeholders
substituted, followed by `'?' + urlencode (query)` exactly when the query is not empty,
where the query holds the parameters whose names are not placeholders of the path, so
that no parameter consumed by the path is handed to the query string. -/
theorem sign_public_request (env : Env) (this : Exchange) (seconds : Nat)
    (path method : String) (params : Obj) (headers body : JsVal) :
    (∃ url : String,
      sign env this seconds path "public" method params headers body =
        Except.ok (Request.mk url method body headers) ∧
      (omitKeys params (env.extractParams path) ≠ [] →
        url = apiUrl ++ "/" ++ version ++ "/" ++ env.implodeParams path params ++ "?" ++
          env.urlencode (omitKeys params (env.extractParams path))) ∧
      (omitKeys params (env.extractParams path) = [] →
        url = apiUrl ++ "/" ++ version ++ "/" ++ env.implodeParams path params)) ∧
    (∀ kv : String × JsVal, kv ∈ omitKeys params (env.extractParams path) ↔
      kv ∈ params ∧ kv.1 ∉ env.extractParams path) ∧
    (∀ k ∈ env.extractParams path,
      Obj.hasKey (omitKeys params (env.extractParams path)) k = false) := by
  refine ⟨?_, omitKeys_mem params _, omitKeys_hasKey params _⟩
  by_cases hq : omitKeys params (env.extractParams path) = []
  · refine ⟨apiUrl ++ "/" ++ version ++ "/" ++ env.implodeParams path params, ?_,
      fun h => absurd hq h, fun _ => rfl⟩
    unfold sign
    simp [hq]
  · refine ⟨apiUrl ++ "/" ++ version ++ "/" ++ env.implodeParams path params ++ "?" ++
      env.urlencode (omitKeys params (env.extractParams path)), ?_, fun _ => rfl,
      fun h => absurd h hq⟩
    have hlen : (omitKeys params (env.extractParams path)).length ≠ 0 := by
      intro h
      exact hq (List.length_eq_zero.mp h)
    unfold sign
    simp [hlen]

/-- C21 at a public `GET` of `order/{orderHash}` with one parameter consumed by the path
and one left for the query. -/
theorem sign_public_request_witness :
    sign samplePathEnv sampleExchange 1534651346 "order/\x7borderHash\x7d" "public" "GET"
        [("orderHash", JsVal.str "0x00"), ("depth", JsVal.str "5")]
        (JsVal.obj [("X-Caller", JsVal.str "1")]) JsVal.undefined =
      Except.ok (Request.mk "https://api.staging.theocean.trade/api/v0/order/0x00?depth" "GET"
        JsVal.undefined (JsVal.obj [("X-Caller", JsVal.str "1")])) ∧
    Obj.hasKey (omitKeys [("orderHash", JsVal.str "0x00"), ("depth", JsVal.str "5")]
      (samplePathEnv.extractParams "order/\x7borderHash\x7d")) "orderHash" = false :=
  ⟨rfl, (sign_public_request samplePathEnv sampleExchange 1534651346 "order/\x7borderHash\x7d"
    "GET" [("orderHash", JsVal.str "0x00"), ("depth", JsVal.str "5")]
    (JsVal.obj [("X-Caller", JsVal.str "1")]) JsVal.undefined).2.2 "orderHash" (by decide)⟩

theorem request_of_response (env : Env) (this : Exchange)
    (fetch2 : String → String → String → Obj → JsVal → JsVal → Except Err JsVal)
    (path api method : String) (params : Obj) (headers body response : JsVal)
    (hfetch : fetch2 path api method params headers body = Except.ok response) :
    request env this fetch2 path api method params headers body =
      requestResponse env this response := by
  unfold request
  rw [hfetch]

/-- C22 (as stated, refuted): for the response made of the single character `{`, a
string whose first character is an opening brace, `request` does not return a parsed
value but throws the `SyntaxError` of `JSON.parse`; and for the response `undefined`,
which is not a string, it throws the `TypeError` of `response.toString ()`, not an
`ExchangeError`. -/
theorem request_throws_on_unparsable :
    request sampleEnv sampleExchange (constantFetch (JsVal.str "\x7b")) "ticker" "public" "GET" []
        JsVal.undefined JsVal.undefined = Except.error Err.SyntaxError ∧
    request sampleEnv sampleExchange (constantFetch JsVal.undefined) "ticker" "public" "GET" []
        JsVal.undefined JsVal.undefined = Except.error Err.TypeError :=
  ⟨rfl, rfl⟩

/-- C22 (amended): for every transport response that is not a string, `request` raises
`ExchangeError`, with the message
`id + ' returned a non-string response: ' + response.toString ()`, when the call
`response.toString ()` returns a text, and throws the `TypeError` of that call when it
does not; if the response is a string whose first character is an opening brace or
bracket it returns the parsed JSON value when `JSON.parse` accepts the text and throws
the parser's `SyntaxError` when it does not; otherwise, the empty string included, it
returns the response string unchanged. -/
theorem request_result (env : Env) (this : Exchange)
    (fetch2 : String → String → String → Obj → JsVal → JsVal → Except Err JsVal)
    (path api method : String) (params : Obj) (headers body response : JsVal)
    (hfetch : fetch2 path api method params headers body = Except.ok response) :
    ((∀ text : String, response ≠ JsVal.str text) →
      (∀ text : String, toStringJs response = some text →
        request env this fetch2 path api method params headers body =
          Except.error
            (Err.ExchangeError (this.id ++ " returned a non-string response: " ++ text))) ∧
      (toStringJs response = none →
        request env this fetch2 path api method params headers body =
          Except.error Err.TypeError)) ∧
    (∀ text : String, response = JsVal.str text →
      (text.data.head? = some '\x7b' ∨ text.data.head? = some '[') →
      (∀ value : JsVal, env.parseJson text = some value →
        request env this fetch2 path api method params headers body = Except.ok value) ∧
      (env.parseJson text = none →
        request env this fetch2 path api method params headers body =
          Except.error Err.SyntaxError)) ∧
    (∀ text : String, response = JsVal.str text →
      ¬ (text.data.head? = some '\x7b' ∨ text.data.head? = some '[') →
      request env this fetch2 path api method params headers body =
        Except.ok (JsVal.str text)) ∧
    (response = JsVal.str "" →
      request env this fetch2 path api method params headers body =
        Except.ok (JsVal.str "")) := by
  have hreq := request_of_response env this fetch2 path api method params headers body
    response hfetch
  rw [hreq]
  refine ⟨?_, ?_, ?_, ?_⟩
  · intro hstr
    constructor
    · intro text htext
      cases response with
      | str s => exact absurd rfl (hstr s)
      | undefined => simp only [requestResponse, htext]
      | bn n => simp only [requestResponse, htext]
      | arr items => simp only [requestResponse, htext]
      | obj fields => simp only [requestResponse, htext]
    · intro hnone
      cases response with
      | str s => exact absurd rfl (hstr s)
      | undefined => simp only [requestResponse, hnone]
      | bn n => simp only [requestResponse, hnone]
      | arr items => simp only [requestResponse, hnone]
      | obj fields => simp only [requestResponse, hnone]
  · intro text htext hhead
    subst htext
    constructor
    · intro value hvalue
      simp only [requestResponse, if_pos hhead, hvalue]
    · intro hnone
      simp only [requestResponse, if_pos hhead, hnone]
  · intro text htext hhead
    subst htext
    simp only [requestResponse, if_neg hhead]
  · intro htext
    subst htext
    rfl

/-- C22 (amended) at an object response, at an object response with an own property
`toString`, at a JSON text, at a plain text and at the empty string. -/
theorem request_result_witness :
    request sampleEnv sampleExchange (constantFetch (JsVal.obj [])) "ticker" "public" "GET" []
        JsVal.undefined JsVal.undefined =
      Except.error (Err.ExchangeError "theocean returned a non-string response: [object Object]") ∧
    request sampleEnv sampleExchange (constantFetch (JsVal.obj [("toString", JsVal.str "x")]))
        "ticker" "public" "GET" [] JsVal.undefined JsVal.undefined =
      Except.error Err.TypeError ∧
    request sampleEnv sampleExchange
        (constantFetch (JsVal.str "\x7b\"error\":\"toString\",\"errors\":[]\x7d"))
        "ticker" "public" "GET" [] JsVal.undefined JsVal.undefined =
      Except.ok (JsVal.obj [("error", JsVal.str "toString"), ("errors", JsVal.arr [])]) ∧
    request sampleEnv sampleExchange (constantFetch (JsVal.str "OK")) "ticker" "public" "GET" []
        JsVal.undefined JsVal.undefined = Except.ok (JsVal.str "OK") ∧
    request sampleEnv sampleExchange (constantFetch (JsVal.str "")) "ticker" "public" "GET" []
        JsVal.undefined JsVal.undefined = Except.ok (JsVal.str "") :=
  ⟨((request_result sampleEnv sampleExchange (constantFetch (JsVal.obj [])) "ticker" "public"
      "GET" [] JsVal.undefined JsVal.undefined (JsVal.obj []) rfl).1
      (fun _ h => JsVal.noConfusion h)).1 "[object Object]" rfl,
   ((request_result sampleEnv sampleExchange
      (constantFetch (JsVal.obj [("toString", JsVal.str "x")])) "ticker" "public"
      "GET" [] JsVal.undefined JsVal.undefined _ rfl).1
      (fun _ h => JsVal.noConfusion h)).2 rfl,
   ((request_result sampleEnv sampleExchange
      (constantFetch (JsVal.str "\x7b\"error\":\"toString\",\"errors\":[]\x7d"))
      "ticker" "public" "GET" [] JsVal.undefined JsVal.undefined _ rfl).2.1 _ rfl
      (Or.inl (by decide))).1 _ rfl,
   (request_result sampleEnv sampleExchange (constantFetch (JsVal.str "OK")) "ticker" "public"
      "GET" [] JsVal.undefined JsVal.undefined _ rfl).2.2.1 "OK" rfl (by decide),
   (request_result sampleEnv sampleExchange (constantFetch (JsVal.str "")) "ticker" "public"
      "GET" [] JsVal.undefined JsVal.undefined _ rfl).2.2.2 rfl⟩

end TheOcean
